import Mathlib

/-!
Verification of the manifest-resolution and tag-generation engine of the
go-vite-parser library (package goviteparser).  The Go source is embedded
shallowly: `map[string]any` values become association lists over `JVal`,
mutation of the `Vite` receiver becomes explicit state passing, and the
filesystem and JSON decoding (external collaborators per the design
document) become function parameters.  Go map iteration, whose order is
unspecified, is modelled by iterating the association list in insertion
order.  `filepath.Join` is modelled as plain separator joining without
path cleaning (no claim depends on cleaning).
-/

namespace GoViteParser

/-- Dynamically typed values as stored in the manifest tree and in
attribute maps (`map[string]any` / `any` in the source). -/
inductive JVal where
  | null
  | bool (b : Bool)
  | str (s : String)
  | int (n : Int)
  | arr (elems : List JVal)
  | obj (fields : List (String × JVal))

/-- Association-list lookup, modelling Go map indexing (`m[k]`, missing
key yields the `nil` interface, modelled as `none`). -/
def alistLookup {α : Type} (l : List (String × α)) (k : String) : Option α :=
  match l with
  | [] => none
  | (k', a) :: rest => if k' = k then some a else alistLookup rest k

/-- Association-list insert-or-replace, modelling Go map assignment
(`m[k] = a`). -/
def alistInsert {α : Type} (l : List (String × α)) (k : String) (a : α) : List (String × α) :=
  match l with
  | [] => [(k, a)]
  | (k', a') :: rest => if k' = k then (k, a) :: rest else (k', a') :: alistInsert rest k a

/-- Go type assertion `x.(string)`. -/
def JVal.getStr : JVal → Option String
  | .str s => some s
  | _ => none

/-- Go type assertion `x.([]any)`. -/
def JVal.getArr : JVal → Option (List JVal)
  | .arr l => some l
  | _ => none

/-- Go type assertion `x.(map[string]any)`. -/
def JVal.getObj : JVal → Option (List (String × JVal))
  | .obj l => some l
  | _ => none

/-- Rendering of a dynamic value the way Go `fmt`'s `%v` verb does for the
scalar kinds the library actually stores in attribute maps (strings,
integers, booleans, nil).  Composite values are rendered as fixed markers;
`fmt` is an external collaborator and no code path inspected by the claims
formats a composite value. -/
def goFormat : JVal → String
  | .null => "<nil>"
  | .bool true => "true"
  | .bool false => "false"
  | .str s => s
  | .int n => toString n
  | .arr _ => "[...]"
  | .obj _ => "map[...]"

/-- Manifest: the parsed JSON object, chunk key to chunk value. -/
abbrev Manifest := List (String × JVal)

/-- A chunk record (`map[string]any` in the source). -/
abbrev Chunk := List (String × JVal)

/-- An attribute map (`map[string]any` in the source). -/
abbrev AttrMap := List (String × JVal)

/-- Set of discovered import keys (`map[string]bool` in the source),
kept as a list in insertion order; membership models the map. -/
abbrev DiscSet := List String

/-- AttributeResolver: user-supplied attribute resolver.  A Go function
returning a possibly-nil map; `none` models the nil map. -/
abbrev AttributeResolver :=
  String → String → Option Chunk → Manifest → Option AttrMap

/-- AssetPathResolver: user-supplied asset path resolver. -/
abbrev AssetPathResolver := String → Bool → String

/-- PrefetchStrategy: the prefetching strategy; the Go zero value ""
(no strategy) is modelled as `Option.none` at the use site. -/
inductive PrefetchStrategy where
  | waterfall
  | aggressive
deriving DecidableEq

/-- PrefetchAsset: an asset to be prefetched. -/
structure PrefetchAsset where
  Rel : String
  FetchPriority : String
  Href : String
  As : String
  Nonce : String
  Crossorigin : String
  Integrity : String
deriving DecidableEq, Repr

/-- ViteConfig: configuration for the Vite instance. -/
structure ViteConfig where
  BuildDirectory : String
  ManifestFilename : String
  HotFile : String
  EntryPoints : List String

/-- Vite: the main instance.  Function-valued fields keep their Go types;
the two mutable maps (`preloadedAssets`, `manifests`) are association
lists. -/
structure Vite where
  config : ViteConfig
  nonce : String
  integrityKey : String
  assetPathResolver : Option AssetPathResolver
  scriptTagAttributeResolvers : List AttributeResolver
  styleTagAttributeResolvers : List AttributeResolver
  preloadTagAttributeResolvers : List AttributeResolver
  preloadedAssets : List (String × AttrMap)
  manifests : List (String × Manifest)
  prefetchStrategy : Option PrefetchStrategy
  prefetchConcurrently : Int
  prefetchEvent : String

/-- NewVite: the default instance. -/
def NewVite : Vite where
  config :=
    { BuildDirectory := "build"
      ManifestFilename := "manifest.json"
      HotFile := "hot"
      EntryPoints := [] }
  nonce := ""
  integrityKey := "integrity"
  assetPathResolver := none
  scriptTagAttributeResolvers := []
  styleTagAttributeResolvers := []
  preloadTagAttributeResolvers := []
  preloadedAssets := []
  manifests := []
  prefetchStrategy := none
  prefetchConcurrently := 3
  prefetchEvent := "load"

/-- Flush clears the state (resets the preloaded-assets registry). -/
def Flush (v : Vite) : Vite :=
  { v with preloadedAssets := [] }

/-- Go `strings.TrimLeft(s, "/")`. -/
def trimLeftSlashes (s : String) : String :=
  String.mk (s.toList.dropWhile (fun c => c = '/'))

/-- Go `strings.TrimRight(s, "/")`. -/
def trimRightSlashes (s : String) : String :=
  String.mk ((s.toList.reverse.dropWhile (fun c => c = '/')).reverse)

/-- assetPath: custom resolver if configured, else "/" plus the path with
leading slashes removed. -/
def assetPath (v : Vite) (path : String) (secure : Bool) : String :=
  match v.assetPathResolver with
  | some resolver => resolver path secure
  | none => "/" ++ trimLeftSlashes path

/-- Model of `filepath.Join` on two components (without path cleaning). -/
def goJoin (a b : String) : String :=
  if a = "" then b else if b = "" then a else a ++ "/" ++ b

/-- Go `strings.HasSuffix`, implemented on character lists so that it
evaluates by kernel reduction. -/
def goEndsWith (s suffix : String) : Bool :=
  s.toList.reverse.take suffix.toList.length == suffix.toList.reverse

/-- The style-suffix alternatives of the `isCSSPath` regular expression. -/
def cssSuffixes : List String :=
  ["css", "less", "sass", "scss", "styl", "stylus", "pcss", "postcss"]

/-- All decompositions of a character list around an occurrence of `?`
(used to model the optional query-string group of the regex). -/
def querySplits : List Char → List (List Char × List Char)
  | [] => []
  | c :: rest =>
    let tails := (querySplits rest).map (fun p => (c :: p.1, p.2))
    if c = '?' then ([], rest) :: tails else tails

/-- isCSSPath: does the path match
`\.(css|less|sass|scss|styl|stylus|pcss|postcss)(\?[^\.]*)?$`. -/
def isCSSPath (path : String) : Bool :=
  cssSuffixes.any (fun ext =>
    goEndsWith path ("." ++ ext) ||
      (querySplits path.toList).any (fun p =>
        goEndsWith (String.mk p.1) ("." ++ ext) && p.2.all (fun c => c ≠ '.')))

/-- parseAttributes: serialize an attribute map.  Absent (`nil`) and
`false` values are skipped, `true` renders as the bare name, anything
else as `name="value"` with `%v` coercion and no escaping. -/
def parseAttributes (attributes : AttrMap) : List String :=
  attributes.foldl (fun result kv =>
    match kv.2 with
    | .null => result
    | .bool false => result
    | .bool true => result ++ [kv.1]
    | v => result ++ [kv.1 ++ "=\"" ++ goFormat v ++ "\""]) []

/-- Merging one resolver's result into the accumulated attributes
(`for k, v := range resolved`): later keys override earlier ones. -/
def mergeAttrs (attrs resolved : AttrMap) : AttrMap :=
  resolved.foldl (fun acc kv => alistInsert acc kv.1 kv.2) attrs

/-- The resolver loop of `resolveScriptTagAttributes` and
`resolveStylesheetTagAttributes` (a nil result merges nothing). -/
def applyAttributeResolvers (attrs : AttrMap) (resolvers : List AttributeResolver)
    (src url : String) (chunk : Option Chunk) (manifest : Manifest) : AttrMap :=
  resolvers.foldl (fun acc r =>
    match r src url chunk manifest with
    | none => acc
    | some resolved => mergeAttrs acc resolved) attrs

/-- The integrity-key default: copy the chunk's integrity field when an
integrity key is configured and the chunk is non-nil and has the field. -/
def withIntegrity (v : Vite) (chunk : Option Chunk) (attrs : AttrMap) : AttrMap :=
  if v.integrityKey ≠ "" then
    match chunk with
    | some c =>
      match alistLookup c v.integrityKey with
      | some integrity => alistInsert attrs "integrity" integrity
      | none => attrs
    | none => attrs
  else attrs

/-- resolveScriptTagAttributes. -/
def resolveScriptTagAttributes (v : Vite) (src url : String)
    (chunk : Option Chunk) (manifest : Manifest) : AttrMap :=
  applyAttributeResolvers (withIntegrity v chunk [])
    v.scriptTagAttributeResolvers src url chunk manifest

/-- resolveStylesheetTagAttributes. -/
def resolveStylesheetTagAttributes (v : Vite) (src url : String)
    (chunk : Option Chunk) (manifest : Manifest) : AttrMap :=
  applyAttributeResolvers (withIntegrity v chunk [])
    v.styleTagAttributeResolvers src url chunk manifest

/-- The preload resolver loop: the first resolver returning the nil map
suppresses the whole preload (`return nil` in the source). -/
def applyPreloadResolvers (attrs : AttrMap) (resolvers : List AttributeResolver)
    (src url : String) (chunk : Option Chunk) (manifest : Manifest) : Option AttrMap :=
  match resolvers with
  | [] => some attrs
  | r :: rest =>
    match r src url chunk manifest with
    | none => none
    | some resolved => applyPreloadResolvers (mergeAttrs attrs resolved) rest src url chunk manifest

/-- resolvePreloadTagAttributes: defaults by script/style classification,
then integrity, then the user resolvers with nil-suppression. -/
def resolvePreloadTagAttributes (v : Vite) (src url : String)
    (chunk : Option Chunk) (manifest : Manifest) : Option AttrMap :=
  let base : AttrMap :=
    if isCSSPath url then
      [("rel", .str "preload"), ("as", .str "style"), ("href", .str url),
       ("nonce", .str v.nonce),
       ("crossorigin",
        (alistLookup (resolveStylesheetTagAttributes v src url chunk manifest)
          "crossorigin").getD .null)]
    else
      [("rel", .str "modulepreload"), ("as", .str "script"), ("href", .str url),
       ("nonce", .str v.nonce),
       ("crossorigin",
        (alistLookup (resolveScriptTagAttributes v src url chunk manifest)
          "crossorigin").getD .null)]
  applyPreloadResolvers (withIntegrity v chunk base)
    v.preloadTagAttributeResolvers src url chunk manifest

/-- makeScriptTagWithAttributes. -/
def makeScriptTagWithAttributes (v : Vite) (url : String) (attributes : AttrMap) : String :=
  let allAttributes : AttrMap :=
    [("type", .str "module"), ("src", .str url), ("nonce", .str v.nonce)]
  let allAttributes := mergeAttrs allAttributes attributes
  "<script " ++ String.intercalate " " (parseAttributes allAttributes) ++ "></script>"

/-- makeStylesheetTagWithAttributes. -/
def makeStylesheetTagWithAttributes (v : Vite) (url : String) (attributes : AttrMap) : String :=
  let allAttributes : AttrMap :=
    [("rel", .str "stylesheet"), ("href", .str url), ("nonce", .str v.nonce)]
  let allAttributes := mergeAttrs allAttributes attributes
  "<link " ++ String.intercalate " " (parseAttributes allAttributes) ++ " />"

/-- makeTagForChunk: stylesheet or script tag by path classification. -/
def makeTagForChunk (v : Vite) (src url : String)
    (chunk : Option Chunk) (manifest : Manifest) : String :=
  if isCSSPath url then
    makeStylesheetTagWithAttributes v url
      (resolveStylesheetTagAttributes v src url chunk manifest)
  else
    makeScriptTagWithAttributes v url
      (resolveScriptTagAttributes v src url chunk manifest)

/-- makePreloadTagForChunk: resolve preload attributes; on suppression
return the empty tag and leave the instance untouched, otherwise record
the asset (attributes minus `href`) in the registry and render the tag. -/
def makePreloadTagForChunk (v : Vite) (src url : String)
    (chunk : Option Chunk) (manifest : Manifest) : String × Vite :=
  match resolvePreloadTagAttributes v src url chunk manifest with
  | none => ("", v)
  | some attributes =>
    let preloadAttrs := attributes.filter (fun kv => kv.1 ≠ "href")
    let v' := { v with preloadedAssets := alistInsert v.preloadedAssets url preloadAttrs }
    ("<link " ++ String.intercalate " " (parseAttributes attributes) ++ " />", v')

/-- Error kinds surfaced by the engine (`fmt.Errorf` values in the
source, distinguished here by constructor). -/
inductive GoError where
  | manifestNotFound (path : String)
  | manifestParseError (path : String)
  | chunkNotFound (key : String)
  | invalidChunkFormat (key : String)
  | invalidFileField (key : String)
  | hotFileMissing (path : String)
deriving DecidableEq

/-- The filesystem, an external collaborator: path to file content, absent
files map to `none`. -/
abbrev FS := String → Option String

/-- manifestPath: `filepath.Join(buildDirectory, manifestFilename)`. -/
def manifestPath (v : Vite) (buildDirectory : String) : String :=
  goJoin buildDirectory v.config.ManifestFilename

/-- getManifest: cache lookup by resolved path, else read and decode the
file; only a successful decode is cached.  JSON decoding is the external
`parse` collaborator (`none` models a decode error). -/
def getManifest (v : Vite) (fs : FS) (parse : String → Option Manifest)
    (buildDirectory : String) : Except GoError Manifest × Vite :=
  let path := manifestPath v buildDirectory
  match alistLookup v.manifests path with
  | some cached => (.ok cached, v)
  | none =>
    match fs path with
    | none => (.error (.manifestNotFound path), v)
    | some content =>
      match parse content with
      | none => (.error (.manifestParseError path), v)
      | some manifest =>
        (.ok manifest, { v with manifests := alistInsert v.manifests path manifest })

/-- getChunk: look an entry key up in the manifest. -/
def getChunk (manifest : Manifest) (file : String) : Except GoError Chunk :=
  match alistLookup manifest file with
  | none => .error (.chunkNotFound file)
  | some c =>
    match c.getObj with
    | none => .error (.invalidChunkFormat file)
    | some chunkMap => .ok chunkMap

/-- HotFile: the hot-file path (default "hot"). -/
def viteHotFile (v : Vite) : String :=
  if v.config.HotFile = "" then "hot" else v.config.HotFile

/-- IsRunningHot: does the hot sentinel file exist. -/
def isRunningHot (v : Vite) (fs : FS) : Bool :=
  (fs (viteHotFile v)).isSome

/-- getHotOrigin: read and trim the hot file. -/
def getHotOrigin (v : Vite) (fs : FS) : Except GoError String :=
  match fs (viteHotFile v) with
  | none => .error (.hotFileMissing (viteHotFile v))
  | some content => .ok content.trim

/-- hotAsset: dev-server URL for an asset. -/
def hotAsset (v : Vite) (fs : FS) (asset : String) : Except GoError String :=
  match getHotOrigin v fs with
  | .error e => .error e
  | .ok origin => .ok (trimRightSlashes origin ++ "/" ++ asset)

/-- Asset: the URL for a single asset; a missing key is surfaced as an
error (unlike graph traversal, which skips silently). -/
def Asset (v : Vite) (fs : FS) (parse : String → Option Manifest)
    (asset buildDirectory : String) : Except GoError String × Vite :=
  let bd := if buildDirectory = "" then v.config.BuildDirectory else buildDirectory
  if isRunningHot v fs then (hotAsset v fs asset, v)
  else
    match getManifest v fs parse bd with
    | (.error e, v') => (.error e, v')
    | (.ok manifest, v') =>
      match getChunk manifest asset with
      | .error e => (.error e, v')
      | .ok chunk =>
        match (alistLookup chunk "file").bind JVal.getStr with
        | none => (.error (.invalidFileField asset), v')
        | some file => (.ok (assetPath v' (goJoin bd file) false), v')

/-- The accumulator of `generateProductionTags`: the mutated instance,
the preload tags and content tags collected so far (each paired with the
resolved URL it was rendered for), and the set of URLs already given a
preload tag (`processedPreloads`). -/
structure TagState where
  v : Vite
  preloads : List (String × String)
  tags : List (String × String)
  processed : List String

/-- The repeated preload block of `generateProductionTags`: if the URL is
not yet processed, make the preload tag, and if it is non-empty append it
and mark the URL processed. -/
def tryAddPreload (st : TagState) (src url : String)
    (chunk : Chunk) (manifest : Manifest) : TagState :=
  if url ∈ st.processed then st
  else
    match makePreloadTagForChunk st.v src url (some chunk) manifest with
    | (preloadTag, v') =>
      if preloadTag = "" then { st with v := v' }
      else
        { st with
          v := v'
          preloads := st.preloads ++ [(url, preloadTag)]
          processed := st.processed ++ [url] }

/-- Reading a list-valued chunk field (`chunk[field].([]any)`), the failed
type assertion yielding the empty loop. -/
def chunkKeyList (chunk : Chunk) (field : String) : List JVal :=
  match (alistLookup chunk field).bind JVal.getArr with
  | some l => l
  | none => []

/-- One iteration of the CSS loop of `generateProductionTags` (identical
for an import's css list and the entry's own): preload the CSS file
(deduplicated) and append its content tag. -/
def addCssTag (st : TagState) (cssV : JVal)
    (buildDirectory : String) (manifest : Manifest) : TagState :=
  match cssV.getStr with
  | none => st
  | some cssStr =>
    let cssURL := assetPath st.v (goJoin buildDirectory cssStr) false
    let cssChunk : Chunk := [("file", .str cssStr)]
    let st := tryAddPreload st cssStr cssURL cssChunk manifest
    { st with
      tags := st.tags ++ [(cssURL, makeTagForChunk st.v cssStr cssURL (some cssChunk) manifest)] }

/-- The CSS loop of `generateProductionTags`. -/
def addCssTags (st : TagState) (cssList : List JVal)
    (buildDirectory : String) (manifest : Manifest) : TagState :=
  cssList.foldl (fun st cssV => addCssTag st cssV buildDirectory manifest) st

/-- One iteration of the imports loop of `generateProductionTags`: the
direct import's file is preloaded and its css list rendered; a key absent
from the manifest is silently skipped. -/
def processImport (st : TagState) (importV : JVal)
    (buildDirectory : String) (manifest : Manifest) : TagState :=
  match importV.getStr with
  | none => st
  | some importStr =>
    match (alistLookup manifest importStr).bind JVal.getObj with
    | none => st
    | some importChunk =>
      let st :=
        match (alistLookup importChunk "file").bind JVal.getStr with
        | none => st
        | some importFile =>
          tryAddPreload st importStr
            (assetPath st.v (goJoin buildDirectory importFile) false) importChunk manifest
      addCssTags st (chunkKeyList importChunk "css") buildDirectory manifest

/-- The imports loop of `generateProductionTags`: one level only. -/
def processImports (st : TagState) (importsList : List JVal)
    (buildDirectory : String) (manifest : Manifest) : TagState :=
  importsList.foldl (fun st importV => processImport st importV buildDirectory manifest) st

/-- The per-entrypoint body of `generateProductionTags`: preload the entry
file, process direct imports, append the entry's own tag, then its css
list; a missing or malformed entry is skipped (`continue`). -/
def processEntry (st : TagState) (entrypoint buildDirectory : String)
    (manifest : Manifest) : TagState :=
  match getChunk manifest entrypoint with
  | .error _ => st
  | .ok chunk =>
    match (alistLookup chunk "file").bind JVal.getStr with
    | none => st
    | some file =>
      let url := assetPath st.v (goJoin buildDirectory file) false
      let st := tryAddPreload st entrypoint url chunk manifest
      let st := processImports st (chunkKeyList chunk "imports") buildDirectory manifest
      let st :=
        { st with
          tags := st.tags ++ [(url, makeTagForChunk st.v entrypoint url (some chunk) manifest)] }
      addCssTags st (chunkKeyList chunk "css") buildDirectory manifest

/-- The whole entrypoint loop of `generateProductionTags`, starting from
empty accumulators and an untouched instance. -/
def generateProductionTagsCore (v : Vite) (entrypoints : List String)
    (buildDirectory : String) (manifest : Manifest) : TagState :=
  entrypoints.foldl (fun st e => processEntry st e buildDirectory manifest)
    ⟨v, [], [], []⟩

/-- The manifest scan of `collectImportsRecursively` that recovers a `src`
key for a chunk that lacks one, by matching on the chunk's `file` field
(Go ranges over the manifest map; modelled in list order). -/
def findSrcByFile (manifest : Manifest) (file : String) : Option String :=
  manifest.findSome? (fun kv =>
    match kv.2.getObj with
    | none => none
    | some chunkValue =>
      match (alistLookup chunkValue "file").bind JVal.getStr with
      | none => none
      | some chunkFile => if chunkFile = file then some kv.1 else none)

/-- The manifest scan of the CSS loop of `collectImportsRecursively`:
find the chunk whose `file` equals the CSS path. -/
def findChunkByFile (manifest : Manifest) (file : String) : Option Chunk :=
  manifest.findSome? (fun kv =>
    match kv.2.getObj with
    | none => none
    | some chunkValue =>
      match (alistLookup chunkValue "file").bind JVal.getStr with
      | none => none
      | some chunkFile => if chunkFile = file then some chunkValue else none)

/-- The `srcStr` computation of `createPrefetchAsset`: empty for the nil
interface, else `%v` formatting. -/
def srcString (src : Option JVal) : String :=
  match src with
  | none => ""
  | some s => goFormat s

/-- createPrefetchAsset: a prefetch record for a chunk file, unless the
URL is already in the preloaded-assets registry or preload attribute
resolution suppresses it.  Note the URL uses `config.BuildDirectory` with
a plain separator (`fmt.Sprintf("%s/%s", ...)`), not `filepath.Join`. -/
def createPrefetchAsset (v : Vite) (src : Option JVal) (file : String)
    (chunk : Option Chunk) (manifest : Manifest) : Option PrefetchAsset :=
  let url := assetPath v (v.config.BuildDirectory ++ "/" ++ file) false
  if (alistLookup v.preloadedAssets url).isSome then none
  else
    match resolvePreloadTagAttributes v (srcString src) url chunk manifest with
    | none => none
    | some attributes =>
      some
        { Rel := "prefetch"
          FetchPriority := "low"
          Href := url
          As :=
            match alistLookup attributes "as" with
            | some (.str s) => s
            | _ => ""
          Nonce := if v.nonce ≠ "" then v.nonce else ""
          Crossorigin :=
            match alistLookup attributes "crossorigin" with
            | some (.str s) => s
            | _ => ""
          Integrity :=
            match alistLookup attributes "integrity" with
            | some (.str s) => s
            | _ => "" }

/-- The "add the current chunk" head of `collectImportsRecursively`:
resolve the `src` (scanning the manifest when the chunk has none) and
create the prefetch asset for the chunk's file. -/
def chunkSelfAssets (v : Vite) (chunk : Chunk) (manifest : Manifest) : List PrefetchAsset :=
  match (alistLookup chunk "file").bind JVal.getStr with
  | none => []
  | some file =>
    let src : Option JVal :=
      match alistLookup chunk "src" with
      | none => (findSrcByFile manifest file).map JVal.str
      | some .null => (findSrcByFile manifest file).map JVal.str
      | some s => some s
    (createPrefetchAsset v src file (some chunk) manifest).toList

/-- The CSS loop of `collectImportsRecursively`: each CSS path becomes a
prefetch asset, using the manifest chunk with that output file when one
exists, else a minimal synthetic chunk. -/
def chunkCssAssets (v : Vite) (chunk : Chunk) (manifest : Manifest) : List PrefetchAsset :=
  (chunkKeyList chunk "css").filterMap (fun cssV =>
    match cssV.getStr with
    | none => none
    | some cssStr =>
      let cssChunk :=
        match findChunkByFile manifest cssStr with
        | some c => c
        | none => [("file", JVal.str cssStr)]
      createPrefetchAsset v (some (JVal.str cssStr)) cssStr (some cssChunk) manifest)

/-- The shared loop over `imports` / `dynamicImports` keys inside
`collectImportsRecursively`: skip non-strings, skip keys already in the
discovered set, mark the key, and recurse (via `rec`) when the key names
a chunk in the manifest.  The discovered set threads through (it is a
shared mutable map in the source). -/
def collectFromKeys (manifest : Manifest)
    (rec : Chunk → DiscSet → Option (List PrefetchAsset × DiscSet)) :
    List JVal → DiscSet → Option (List PrefetchAsset × DiscSet)
  | [], discovered => some ([], discovered)
  | importV :: rest, discovered =>
    match importV.getStr with
    | none => collectFromKeys manifest rec rest discovered
    | some importStr =>
      if importStr ∈ discovered then collectFromKeys manifest rec rest discovered
      else
        let discovered' := discovered ++ [importStr]
        match (alistLookup manifest importStr).bind JVal.getObj with
        | none => collectFromKeys manifest rec rest discovered'
        | some importChunk =>
          match rec importChunk discovered' with
          | none => none
          | some (collected, d1) =>
            match collectFromKeys manifest rec rest d1 with
            | none => none
            | some (collected', d2) => some (collected ++ collected', d2)

/-- collectImportsRecursively: the current chunk's asset, then recursion
through `imports`, then through `dynamicImports`, then the css assets.
The Go original recurses unboundedly, terminating because the discovered
set guards every recursive call; here `fuel` makes the recursion
structural, and `collectAux_sufficient` below proves that the fuel bound
used by `collectDynamicImports` is never exhausted — the termination
argument of the source. -/
def collectImportsRecursively (v : Vite) (manifest : Manifest) :
    Nat → Chunk → DiscSet → Option (List PrefetchAsset × DiscSet)
  | 0, _, _ => none
  | fuel + 1, chunk, discovered =>
    match collectFromKeys manifest (collectImportsRecursively v manifest fuel)
        (chunkKeyList chunk "imports") discovered with
    | none => none
    | some (a1, d1) =>
      match collectFromKeys manifest (collectImportsRecursively v manifest fuel)
          (chunkKeyList chunk "dynamicImports") d1 with
      | none => none
      | some (a2, d2) =>
        some (chunkSelfAssets v chunk manifest ++ a1 ++ a2 ++ chunkCssAssets v chunk manifest, d2)

/-- uniquePrefetchAssets: drop later assets with an already-seen href. -/
def uniqueAssetsAux (seen : List String) : List PrefetchAsset → List PrefetchAsset
  | [] => []
  | asset :: rest =>
    if asset.Href ∈ seen then uniqueAssetsAux seen rest
    else asset :: uniqueAssetsAux (seen ++ [asset.Href]) rest

/-- uniquePrefetchAssets removes duplicate assets based on href. -/
def uniquePrefetchAssets (assets : List PrefetchAsset) : List PrefetchAsset :=
  uniqueAssetsAux [] assets

/-- The fuel bound `collectDynamicImports` hands to the recursive
traversal; one more than the number of manifest entries. -/
def collectFuel (manifest : Manifest) : Nat := manifest.length + 1

/-- One iteration of the inner loop of `collectDynamicImports`: a
dynamic-import key whose chunk exists and whose file is `.js`/`.css` is
expanded recursively through the shared discovered set. -/
def collectDynamicImportEntry (v : Vite) (manifest : Manifest)
    (acc : List PrefetchAsset × DiscSet) (importV : JVal) : List PrefetchAsset × DiscSet :=
  match importV.getStr with
  | none => acc
  | some importStr =>
    match (alistLookup manifest importStr).bind JVal.getObj with
    | none => acc
    | some importChunk =>
      match (alistLookup importChunk "file").bind JVal.getStr with
      | none => acc
      | some file =>
        if goEndsWith file ".js" || goEndsWith file ".css" then
          match collectImportsRecursively v manifest (collectFuel manifest)
              importChunk acc.2 with
          | none => acc
          | some (collected, d) => (acc.1 ++ collected, d)
        else acc

/-- One iteration of the outer loop of `collectDynamicImports`: read an
entrypoint's `dynamicImports` and process each key. -/
def collectDynamicEntrypoint (v : Vite) (manifest : Manifest)
    (acc : List PrefetchAsset × DiscSet) (entrypoint : String) : List PrefetchAsset × DiscSet :=
  match (alistLookup manifest entrypoint).bind JVal.getObj with
  | none => acc
  | some chunk =>
    match (alistLookup chunk "dynamicImports").bind JVal.getArr with
    | none => acc
    | some dynamicImports =>
      dynamicImports.foldl (fun acc importV =>
        collectDynamicImportEntry v manifest acc importV) acc

/-- collectDynamicImports: for each entrypoint read its `dynamicImports`;
each such chunk with a `.js`/`.css` file is expanded recursively, the
discovered set threading through the whole call; the result is
deduplicated by href. -/
def collectDynamicImports (v : Vite) (entrypoints : List String)
    (manifest : Manifest) : List PrefetchAsset :=
  let res := entrypoints.foldl
    (fun acc entrypoint => collectDynamicEntrypoint v manifest acc entrypoint) ([], [])
  uniquePrefetchAssets res.1

/-- JSON encoding of one prefetch asset (`json.Marshal` with the struct
tags of `PrefetchAsset`, empty optional fields omitted). -/
def prefetchAssetJSON (a : PrefetchAsset) : String :=
  "\x7b\"rel\":\"" ++ a.Rel ++ "\",\"fetchpriority\":\"" ++ a.FetchPriority ++
    "\",\"href\":\"" ++ a.Href ++ "\"" ++
    (if a.As = "" then "" else ",\"as\":\"" ++ a.As ++ "\"") ++
    (if a.Nonce = "" then "" else ",\"nonce\":\"" ++ a.Nonce ++ "\"") ++
    (if a.Crossorigin = "" then "" else ",\"crossorigin\":\"" ++ a.Crossorigin ++ "\"") ++
    (if a.Integrity = "" then "" else ",\"integrity\":\"" ++ a.Integrity ++ "\"") ++
    "\x7d"

/-- JSON encoding of the prefetch asset list. -/
def prefetchAssetsJSON (assets : List PrefetchAsset) : String :=
  "[" ++ String.intercalate "," (assets.map prefetchAssetJSON) ++ "]"

/-- The waterfall client-side loader script body (the Go template with its
format verbs substituted). -/
def waterfallScript (nonceAttr event assetsJSON concurrency : String) : String :=
  "\n<script" ++ nonceAttr ++ ">\n     window.addEventListener(\x27" ++ event ++
    "\x27, () => window.setTimeout(() => \x7b\n        const makeLink = (asset) => \x7b\n            const link = document.createElement(\x27link\x27)\n\n            Object.keys(asset).forEach((attribute) => \x7b\n                link.setAttribute(attribute, asset[attribute])\n            \x7d)\n\n            return link\n        \x7d\n\n        const loadNext = (assets, count) => window.setTimeout(() => \x7b\n            if (count > assets.length) \x7b\n                count = assets.length\n\n                if (count === 0) \x7b\n                    return\n                \x7d\n            \x7d\n\n            const fragment = new DocumentFragment\n\n            while (count > 0) \x7b\n                const link = makeLink(assets.shift())\n                fragment.append(link)\n                count--\n\n                if (assets.length) \x7b\n                    link.onload = () => loadNext(assets, 1)\n                    link.onerror = () => loadNext(assets, 1)\n                \x7d\n            \x7d\n\n            document.head.append(fragment)\n        \x7d)\n\n        loadNext(" ++
    assetsJSON ++ ", " ++ concurrency ++ ")\n    \x7d))\n</script>"

/-- The aggressive client-side loader script body. -/
def aggressiveScript (nonceAttr event assetsJSON : String) : String :=
  "\n<script" ++ nonceAttr ++ ">\n     window.addEventListener(\x27" ++ event ++
    "\x27, () => window.setTimeout(() => \x7b\n        const makeLink = (asset) => \x7b\n            const link = document.createElement(\x27link\x27)\n\n            Object.keys(asset).forEach((attribute) => \x7b\n                link.setAttribute(attribute, asset[attribute])\n            \x7d)\n\n            return link\n        \x7d\n\n        const fragment = new DocumentFragment;\n        " ++
    assetsJSON ++ ".forEach((asset) => fragment.append(makeLink(asset)))\n        document.head.append(fragment)\n     \x7d))\n</script>"

/-- generatePrefetchScript: serialize the assets and emit the loader for
the selected strategy; empty asset list yields the empty string. -/
def generatePrefetchScript (v : Vite) (assets : List PrefetchAsset)
    (strategy : PrefetchStrategy) : String :=
  if assets.isEmpty then ""
  else
    let assetsJSON := prefetchAssetsJSON assets
    let nonceAttr := if v.nonce ≠ "" then " nonce=\"" ++ v.nonce ++ "\"" else ""
    match strategy with
    | .waterfall =>
      waterfallScript nonceAttr v.prefetchEvent assetsJSON (toString v.prefetchConcurrently)
    | .aggressive => aggressiveScript nonceAttr v.prefetchEvent assetsJSON

/-- The prefetch segment appended after the base markup: empty when no
strategy is configured or no dynamic assets were collected. -/
def prefetchSegment (v : Vite) (entrypoints : List String) (manifest : Manifest) : String :=
  match v.prefetchStrategy with
  | none => ""
  | some strategy =>
    let prefetchAssets := collectDynamicImports v entrypoints manifest
    if prefetchAssets.isEmpty then ""
    else generatePrefetchScript v prefetchAssets strategy

/-- generateProductionTags: all preload tags (discovery order), then all
content tags (discovery order), then the optional prefetch script.  The
Go signature carries an error that is nil on every path, modelled by an
always-`ok` `Except`. -/
def generateProductionTags (v : Vite) (entrypoints : List String)
    (buildDirectory : String) (manifest : Manifest) : Except GoError String × Vite :=
  let st := generateProductionTagsCore v entrypoints buildDirectory manifest
  let base :=
    String.join (st.preloads.map (fun p => p.2)) ++ String.join (st.tags.map (fun p => p.2))
  (.ok (base ++ prefetchSegment st.v entrypoints manifest), st.v)

/-! ### Basic lemmas about the association-list operations -/

theorem alistLookup_insert_self {α : Type} (l : List (String × α)) (k : String) (a : α) :
    alistLookup (alistInsert l k a) k = some a := by
  induction l with
  | nil => simp [alistInsert, alistLookup]
  | cons hd tl ih =>
    by_cases h : hd.1 = k
    · simp [alistInsert, alistLookup, h]
    · simp [alistInsert, alistLookup, h, ih]

theorem alistLookup_insert_isSome {α : Type} (l : List (String × α)) (k k' : String) (a : α)
    (h : (alistLookup l k').isSome) : (alistLookup (alistInsert l k a) k').isSome := by
  induction l with
  | nil => simp [alistLookup] at h
  | cons hd tl ih =>
    by_cases hk : hd.1 = k
    · by_cases hk' : hd.1 = k'
      · simp [alistInsert, alistLookup, hk, hk ▸ hk']
      · simp [alistLookup, hk'] at h
        simp [alistInsert, alistLookup, hk, hk ▸ hk', h]
    · by_cases hk' : hd.1 = k'
      · have hkk : ¬k' = k := fun hh => hk (hk'.trans hh)
        simp [alistInsert, alistLookup, hk, hk', hkk]
      · simp [alistLookup, hk'] at h
        simp [alistInsert, alistLookup, hk, hk', ih h]

/-! ### The production tag loop: state invariants

`TagInv` is the dedup invariant: the URLs of the emitted preload tags are
exactly the processed set, which never holds duplicates.  `PAmono` states
that the preloaded-assets registry only gains keys.  `sameExceptPreloaded`
states that a state transition touched nothing in the instance but the
registry. -/

def TagInv (st : TagState) : Prop :=
  st.preloads.map Prod.fst = st.processed ∧ st.processed.Nodup

def PAmono (v v' : Vite) : Prop :=
  ∀ k, (alistLookup v.preloadedAssets k).isSome → (alistLookup v'.preloadedAssets k).isSome

def sameExceptPreloaded (v v' : Vite) : Prop :=
  v' = { v with preloadedAssets := v'.preloadedAssets }

theorem sameExceptPreloaded_refl (v : Vite) : sameExceptPreloaded v v := rfl

theorem sameExceptPreloaded_trans {v v' v'' : Vite}
    (h1 : sameExceptPreloaded v v') (h2 : sameExceptPreloaded v' v'') :
    sameExceptPreloaded v v'' := by
  unfold sameExceptPreloaded at *
  rw [h2, h1]

theorem PAmono_refl (v : Vite) : PAmono v v := fun _ h => h

theorem PAmono_trans {v v' v'' : Vite} (h1 : PAmono v v') (h2 : PAmono v' v'') :
    PAmono v v'' := fun k h => h2 k (h1 k h)

theorem assetPath_congr {v v' : Vite} (h : sameExceptPreloaded v v') :
    assetPath v' = assetPath v := by
  rw [h]
  rfl

theorem nodup_append_singleton {α : Type} {l : List α} {a : α}
    (h : l.Nodup) (ha : a ∉ l) : (l ++ [a]).Nodup := by
  simp [List.nodup_append, h, ha]

/-- Case analysis of `makePreloadTagForChunk`: suppression leaves the
instance untouched; success stores the attributes minus `href` under the
URL. -/
theorem makePreloadTagForChunk_cases (v : Vite) (src url : String)
    (chunk : Option Chunk) (manifest : Manifest) :
    (resolvePreloadTagAttributes v src url chunk manifest = none ∧
      makePreloadTagForChunk v src url chunk manifest = ("", v)) ∨
    (∃ attributes, resolvePreloadTagAttributes v src url chunk manifest = some attributes ∧
      makePreloadTagForChunk v src url chunk manifest =
        ("<link " ++ String.intercalate " " (parseAttributes attributes) ++ " />",
         { v with preloadedAssets :=
            alistInsert v.preloadedAssets url (attributes.filter (fun kv => kv.1 ≠ "href")) })) := by
  unfold makePreloadTagForChunk
  cases h : resolvePreloadTagAttributes v src url chunk manifest with
  | none => exact Or.inl ⟨rfl, rfl⟩
  | some attributes => exact Or.inr ⟨attributes, rfl, rfl⟩

theorem makePreloadTagForChunk_sameExcept (v : Vite) (src url : String)
    (chunk : Option Chunk) (manifest : Manifest) :
    sameExceptPreloaded v (makePreloadTagForChunk v src url chunk manifest).2 := by
  rcases makePreloadTagForChunk_cases v src url chunk manifest with ⟨_, h⟩ | ⟨a, _, h⟩ <;>
    rw [h] <;> rfl

theorem makePreloadTagForChunk_PAmono (v : Vite) (src url : String)
    (chunk : Option Chunk) (manifest : Manifest) :
    PAmono v (makePreloadTagForChunk v src url chunk manifest).2 := by
  rcases makePreloadTagForChunk_cases v src url chunk manifest with ⟨_, h⟩ | ⟨a, _, h⟩ <;> rw [h]
  · exact PAmono_refl v
  · intro k hk
    exact alistLookup_insert_isSome _ _ _ _ hk

/-- Everything `tryAddPreload` can do to the state: the instance changes
only in its registry and only by gaining keys, the content tags are
untouched, and the preload list either stays or gains exactly the pair
for a previously unprocessed URL, which is then marked processed. -/
theorem tryAddPreload_spec (st : TagState) (src url : String)
    (chunk : Chunk) (manifest : Manifest) :
    sameExceptPreloaded st.v (tryAddPreload st src url chunk manifest).v ∧
    PAmono st.v (tryAddPreload st src url chunk manifest).v ∧
    (tryAddPreload st src url chunk manifest).tags = st.tags ∧
    ((tryAddPreload st src url chunk manifest).preloads = st.preloads ∧
      (tryAddPreload st src url chunk manifest).processed = st.processed ∨
     url ∉ st.processed ∧
      (∃ tag, (tryAddPreload st src url chunk manifest).preloads = st.preloads ++ [(url, tag)]) ∧
      (tryAddPreload st src url chunk manifest).processed = st.processed ++ [url]) := by
  unfold tryAddPreload
  by_cases hmem : url ∈ st.processed
  · rw [if_pos hmem]
    exact ⟨sameExceptPreloaded_refl _, PAmono_refl _, rfl, Or.inl ⟨rfl, rfl⟩⟩
  · rw [if_neg hmem]
    rcases h : makePreloadTagForChunk st.v src url (some chunk) manifest with ⟨tag, v'⟩
    have hsame : sameExceptPreloaded st.v v' := by
      have := makePreloadTagForChunk_sameExcept st.v src url (some chunk) manifest
      rwa [h] at this
    have hmono : PAmono st.v v' := by
      have := makePreloadTagForChunk_PAmono st.v src url (some chunk) manifest
      rwa [h] at this
    dsimp only
    by_cases htag : tag = ""
    · rw [if_pos htag]
      exact ⟨hsame, hmono, rfl, Or.inl ⟨rfl, rfl⟩⟩
    · rw [if_neg htag]
      exact ⟨hsame, hmono, rfl, Or.inr ⟨hmem, ⟨tag, rfl⟩, rfl⟩⟩

theorem tryAddPreload_inv (st : TagState) (src url : String)
    (chunk : Chunk) (manifest : Manifest) (h : TagInv st) :
    TagInv (tryAddPreload st src url chunk manifest) := by
  rcases tryAddPreload_spec st src url chunk manifest with ⟨-, -, -, hcase⟩
  rcases hcase with ⟨hp, hq⟩ | ⟨hmem, ⟨tag, hp⟩, hq⟩
  · exact ⟨hp ▸ hq ▸ h.1, hq ▸ h.2⟩
  · constructor
    · rw [hp, hq, List.map_append, h.1]
      rfl
    · rw [hq]
      exact nodup_append_singleton (h.2) (fun hm => hmem (h.1 ▸ hm))

/-! ### Provenance of the URLs emitted for one entry (specification side)

The following definitions are written from the claim's wording, not from
the loop: the URLs a single entry may contribute are its own file URL,
the file URLs of its direct imports, and the CSS URLs of the entry and of
those direct imports.  `claim_C3` relates the loop to them. -/

/-- Flattened per-item URL contributions of a list. -/
def flatURLs {β : Type} (contrib : β → List String) (l : List β) : List String :=
  l.foldr (fun b acc => contrib b ++ acc) []

/-- The URL of one css entry. -/
def cssItemURLs (v : Vite) (buildDirectory : String) (cssV : JVal) : List String :=
  (cssV.getStr.map (fun s => assetPath v (goJoin buildDirectory s) false)).toList

/-- The CSS URLs of a css list. -/
def cssURLsFrom (v : Vite) (buildDirectory : String) (cssList : List JVal) : List String :=
  flatURLs (cssItemURLs v buildDirectory) cssList

/-- File URL and CSS URLs contributed by one direct import key. -/
def importItemPreloadURLs (v : Vite) (buildDirectory : String) (manifest : Manifest)
    (importV : JVal) : List String :=
  match importV.getStr with
  | none => []
  | some importStr =>
    match (alistLookup manifest importStr).bind JVal.getObj with
    | none => []
    | some importChunk =>
      (match (alistLookup importChunk "file").bind JVal.getStr with
       | some f => [assetPath v (goJoin buildDirectory f) false]
       | none => []) ++
        cssURLsFrom v buildDirectory (chunkKeyList importChunk "css")

/-- File URLs and CSS URLs contributed by a list of direct import keys. -/
def importsPreloadURLs (v : Vite) (buildDirectory : String) (manifest : Manifest)
    (importsList : List JVal) : List String :=
  flatURLs (importItemPreloadURLs v buildDirectory manifest) importsList

/-- CSS URLs contributed by one direct import key. -/
def importItemCssURLs (v : Vite) (buildDirectory : String) (manifest : Manifest)
    (importV : JVal) : List String :=
  match importV.getStr with
  | none => []
  | some importStr =>
    match (alistLookup manifest importStr).bind JVal.getObj with
    | none => []
    | some importChunk => cssURLsFrom v buildDirectory (chunkKeyList importChunk "css")

/-- CSS URLs contributed by a list of direct import keys. -/
def importsCssURLs (v : Vite) (buildDirectory : String) (manifest : Manifest)
    (importsList : List JVal) : List String :=
  flatURLs (importItemCssURLs v buildDirectory manifest) importsList

theorem mem_flatURLs_of_mem {β : Type} (contrib : β → List String) {l : List β} {b : β}
    (hb : b ∈ l) {u : String} (hu : u ∈ contrib b) : u ∈ flatURLs contrib l := by
  induction l with
  | nil => cases hb
  | cons hd tl ih =>
    rcases List.mem_cons.1 hb with hb | hb
    · exact List.mem_append.2 (Or.inl (hb ▸ hu))
    · exact List.mem_append.2 (Or.inr (ih hb))

/-- All URLs a single entry may give a preload tag: its own file, its
direct imports' files, and the CSS of the entry and the direct imports. -/
def entryPreloadURLs (v : Vite) (buildDirectory : String) (manifest : Manifest)
    (entrypoint : String) : List String :=
  match getChunk manifest entrypoint with
  | .error _ => []
  | .ok chunk =>
    match (alistLookup chunk "file").bind JVal.getStr with
    | none => []
    | some file =>
      assetPath v (goJoin buildDirectory file) false ::
        (importsPreloadURLs v buildDirectory manifest (chunkKeyList chunk "imports") ++
          cssURLsFrom v buildDirectory (chunkKeyList chunk "css"))

/-- All URLs a single entry may give a content tag: its own file and the
CSS of the entry and of its direct imports. -/
def entryTagURLs (v : Vite) (buildDirectory : String) (manifest : Manifest)
    (entrypoint : String) : List String :=
  match getChunk manifest entrypoint with
  | .error _ => []
  | .ok chunk =>
    match (alistLookup chunk "file").bind JVal.getStr with
    | none => []
    | some file =>
      assetPath v (goJoin buildDirectory file) false ::
        (importsCssURLs v buildDirectory manifest (chunkKeyList chunk "imports") ++
          cssURLsFrom v buildDirectory (chunkKeyList chunk "css"))

/-- What one step of the production loop may do: touch only the registry
of the instance, only monotonically, preserve the dedup invariant, and
add preload (resp. tag) URLs only from the given candidate lists. -/
def StepBound (st st' : TagState) (preCand tagCand : List String) : Prop :=
  sameExceptPreloaded st.v st'.v ∧ PAmono st.v st'.v ∧ (TagInv st → TagInv st') ∧
  (∀ u, u ∈ st'.preloads.map Prod.fst → u ∈ st.preloads.map Prod.fst ∨ u ∈ preCand) ∧
  (∀ u, u ∈ st'.tags.map Prod.fst → u ∈ st.tags.map Prod.fst ∨ u ∈ tagCand)

theorem StepBound_refl (st : TagState) (c t : List String) : StepBound st st c t :=
  ⟨sameExceptPreloaded_refl _, PAmono_refl _, id,
   fun _ h => Or.inl h, fun _ h => Or.inl h⟩

theorem StepBound_mono {st st' : TagState} {c c' t t' : List String}
    (hc : ∀ u ∈ c, u ∈ c') (ht : ∀ u ∈ t, u ∈ t')
    (h : StepBound st st' c t) : StepBound st st' c' t' :=
  ⟨h.1, h.2.1, h.2.2.1,
   fun u hu => (h.2.2.2.1 u hu).elim Or.inl (fun hm => Or.inr (hc u hm)),
   fun u hu => (h.2.2.2.2 u hu).elim Or.inl (fun hm => Or.inr (ht u hm))⟩

theorem StepBound_trans {st st1 st2 : TagState} {c t : List String}
    (h1 : StepBound st st1 c t) (h2 : StepBound st1 st2 c t) : StepBound st st2 c t :=
  ⟨sameExceptPreloaded_trans h1.1 h2.1, PAmono_trans h1.2.1 h2.2.1,
   fun hi => h2.2.2.1 (h1.2.2.1 hi),
   fun u hu => (h2.2.2.2.1 u hu).elim (fun hm => h1.2.2.2.1 u hm) Or.inr,
   fun u hu => (h2.2.2.2.2 u hu).elim (fun hm => h1.2.2.2.2 u hm) Or.inr⟩

theorem tryAddPreload_stepBound (st : TagState) (src url : String)
    (chunk : Chunk) (manifest : Manifest) :
    StepBound st (tryAddPreload st src url chunk manifest) [url] [] := by
  rcases tryAddPreload_spec st src url chunk manifest with ⟨hsame, hmono, htags, hcase⟩
  refine ⟨hsame, hmono, tryAddPreload_inv st src url chunk manifest, ?_, ?_⟩
  · intro u hu
    rcases hcase with ⟨hp, -⟩ | ⟨-, ⟨tag, hp⟩, -⟩
    · exact Or.inl (hp ▸ hu)
    · rw [hp, List.map_append] at hu
      rcases List.mem_append.1 hu with hm | hm
      · exact Or.inl hm
      · simp at hm
        simp [hm]
  · intro u hu
    exact Or.inl (htags ▸ hu)

theorem tagsAppend_stepBound (st : TagState) (url tag : String) :
    StepBound st { st with tags := st.tags ++ [(url, tag)] } [] [url] := by
  refine ⟨sameExceptPreloaded_refl _, PAmono_refl _, fun hi => hi, fun _ h => Or.inl h, ?_⟩
  intro u hu
  simp only [List.map_append] at hu
  rcases List.mem_append.1 hu with hm | hm
  · exact Or.inl hm
  · simp at hm
    simp [hm]

theorem foldl_stepBound {β : Type} (v₀ : Vite) (f : TagState → β → TagState)
    (C T : List String) :
    ∀ l : List β,
      (∀ st b, b ∈ l → sameExceptPreloaded v₀ st.v → StepBound st (f st b) C T) →
      ∀ st, sameExceptPreloaded v₀ st.v → StepBound st (l.foldl f st) C T := by
  intro l
  induction l with
  | nil => exact fun _ st _ => StepBound_refl st C T
  | cons b rest ih =>
    intro hf st hv
    have h1 := hf st b (List.mem_cons_self b rest) hv
    have hv1 : sameExceptPreloaded v₀ (f st b).v := sameExceptPreloaded_trans hv h1.1
    exact StepBound_trans h1
      (ih (fun st' b' hb' hv' => hf st' b' (List.mem_cons_of_mem b hb') hv') (f st b) hv1)

theorem addCssTag_stepBound (v₀ : Vite) (bd : String) (manifest : Manifest)
    (cssList : List JVal) (st : TagState) (cssV : JVal) (hmem : cssV ∈ cssList)
    (hv : sameExceptPreloaded v₀ st.v) :
    StepBound st (addCssTag st cssV bd manifest)
      (cssURLsFrom v₀ bd cssList) (cssURLsFrom v₀ bd cssList) := by
  cases hs : cssV.getStr with
  | none =>
    have hid : addCssTag st cssV bd manifest = st := by
      unfold addCssTag
      rw [hs]
    rw [hid]
    exact StepBound_refl st _ _
  | some cssStr =>
    have hurl : assetPath st.v (goJoin bd cssStr) false =
        assetPath v₀ (goJoin bd cssStr) false := by
      rw [assetPath_congr hv]
    have hmemC : assetPath v₀ (goJoin bd cssStr) false ∈ cssURLsFrom v₀ bd cssList :=
      mem_flatURLs_of_mem _ hmem (by simp [cssItemURLs, hs])
    simp only [addCssTag, hs]
    refine StepBound_trans
      (StepBound_mono ?_ ?_
        (tryAddPreload_stepBound st cssStr (assetPath st.v (goJoin bd cssStr) false)
          [("file", JVal.str cssStr)] manifest))
      (StepBound_mono ?_ ?_
        (tagsAppend_stepBound
          (tryAddPreload st cssStr (assetPath st.v (goJoin bd cssStr) false)
            [("file", JVal.str cssStr)] manifest)
          (assetPath st.v (goJoin bd cssStr) false) _))
    · intro u hu
      simp at hu
      rw [hu, hurl]
      exact hmemC
    · intro u hu
      cases hu
    · intro u hu
      cases hu
    · intro u hu
      simp at hu
      rw [hu, hurl]
      exact hmemC

theorem addCssTags_stepBound (v₀ : Vite) (bd : String) (manifest : Manifest)
    (cssList : List JVal) (st : TagState) (hv : sameExceptPreloaded v₀ st.v) :
    StepBound st (addCssTags st cssList bd manifest)
      (cssURLsFrom v₀ bd cssList) (cssURLsFrom v₀ bd cssList) :=
  foldl_stepBound v₀ _ _ _ cssList
    (fun st' cssV hmem hv' => addCssTag_stepBound v₀ bd manifest cssList st' cssV hmem hv')
    st hv

theorem processImport_stepBound (v₀ : Vite) (bd : String) (manifest : Manifest)
    (importsList : List JVal) (st : TagState) (importV : JVal) (hmem : importV ∈ importsList)
    (hv : sameExceptPreloaded v₀ st.v) :
    StepBound st (processImport st importV bd manifest)
      (importsPreloadURLs v₀ bd manifest importsList)
      (importsCssURLs v₀ bd manifest importsList) := by
  cases hs : importV.getStr with
  | none =>
    have hid : processImport st importV bd manifest = st := by
      unfold processImport
      rw [hs]
    rw [hid]
    exact StepBound_refl st _ _
  | some importStr =>
    cases hobj : (alistLookup manifest importStr).bind JVal.getObj with
    | none =>
      have hid : processImport st importV bd manifest = st := by
        unfold processImport
        simp only [hs, hobj]
      rw [hid]
      exact StepBound_refl st _ _
    | some importChunk =>
      have hitemPre : ∀ u ∈ importItemPreloadURLs v₀ bd manifest importV,
          u ∈ importsPreloadURLs v₀ bd manifest importsList :=
        fun u hu => mem_flatURLs_of_mem _ hmem hu
      have hitemCss : ∀ u ∈ importItemCssURLs v₀ bd manifest importV,
          u ∈ importsCssURLs v₀ bd manifest importsList :=
        fun u hu => mem_flatURLs_of_mem _ hmem hu
      have hcssPre : ∀ u ∈ cssURLsFrom v₀ bd (chunkKeyList importChunk "css"),
          u ∈ importsPreloadURLs v₀ bd manifest importsList := by
        intro u hu
        refine hitemPre u ?_
        unfold importItemPreloadURLs
        simp only [hs, hobj]
        exact List.mem_append.2 (Or.inr hu)
      have hcssCss : ∀ u ∈ cssURLsFrom v₀ bd (chunkKeyList importChunk "css"),
          u ∈ importsCssURLs v₀ bd manifest importsList := by
        intro u hu
        refine hitemCss u ?_
        unfold importItemCssURLs
        simp only [hs, hobj]
        exact hu
      cases hfile : (alistLookup importChunk "file").bind JVal.getStr with
      | none =>
        have hid : processImport st importV bd manifest =
            addCssTags st (chunkKeyList importChunk "css") bd manifest := by
          unfold processImport
          simp only [hs, hobj, hfile]
        rw [hid]
        exact StepBound_mono hcssPre hcssCss
          (addCssTags_stepBound v₀ bd manifest (chunkKeyList importChunk "css") st hv)
      | some importFile =>
        have hurl : assetPath st.v (goJoin bd importFile) false =
            assetPath v₀ (goJoin bd importFile) false := by
          rw [assetPath_congr hv]
        have hfileC : assetPath v₀ (goJoin bd importFile) false ∈
            importsPreloadURLs v₀ bd manifest importsList := by
          refine hitemPre _ ?_
          unfold importItemPreloadURLs
          simp only [hs, hobj, hfile]
          exact List.mem_append.2 (Or.inl (List.mem_singleton.2 rfl))
        have hid : processImport st importV bd manifest =
            addCssTags
              (tryAddPreload st importStr (assetPath st.v (goJoin bd importFile) false)
                importChunk manifest)
              (chunkKeyList importChunk "css") bd manifest := by
          unfold processImport
          simp only [hs, hobj, hfile]
        rw [hid]
        have h1 := tryAddPreload_stepBound st importStr
          (assetPath st.v (goJoin bd importFile) false) importChunk manifest
        have hv1 : sameExceptPreloaded v₀
            (tryAddPreload st importStr (assetPath st.v (goJoin bd importFile) false)
              importChunk manifest).v :=
          sameExceptPreloaded_trans hv h1.1
        refine StepBound_trans (StepBound_mono ?_ ?_ h1)
          (StepBound_mono hcssPre hcssCss
            (addCssTags_stepBound v₀ bd manifest (chunkKeyList importChunk "css") _ hv1))
        · intro u hu
          simp at hu
          rw [hu, hurl]
          exact hfileC
        · intro u hu
          cases hu

theorem processImports_stepBound (v₀ : Vite) (bd : String) (manifest : Manifest)
    (importsList : List JVal) (st : TagState) (hv : sameExceptPreloaded v₀ st.v) :
    StepBound st (processImports st importsList bd manifest)
      (importsPreloadURLs v₀ bd manifest importsList)
      (importsCssURLs v₀ bd manifest importsList) :=
  foldl_stepBound v₀ _ _ _ importsList
    (fun st' importV hmem hv' =>
      processImport_stepBound v₀ bd manifest importsList st' importV hmem hv')
    st hv

theorem processEntry_stepBound (v₀ : Vite) (bd : String) (manifest : Manifest)
    (e : String) (st : TagState) (hv : sameExceptPreloaded v₀ st.v) :
    StepBound st (processEntry st e bd manifest)
      (entryPreloadURLs v₀ bd manifest e) (entryTagURLs v₀ bd manifest e) := by
  cases hget : getChunk manifest e with
  | error err =>
    have hid : processEntry st e bd manifest = st := by
      unfold processEntry
      simp only [hget]
    rw [hid]
    exact StepBound_refl st _ _
  | ok chunk =>
    cases hfile : (alistLookup chunk "file").bind JVal.getStr with
    | none =>
      have hid : processEntry st e bd manifest = st := by
        unfold processEntry
        simp only [hget, hfile]
      rw [hid]
      exact StepBound_refl st _ _
    | some file =>
      have hurl : assetPath st.v (goJoin bd file) false =
          assetPath v₀ (goJoin bd file) false := by
        rw [assetPath_congr hv]
      have hPre : entryPreloadURLs v₀ bd manifest e =
          assetPath v₀ (goJoin bd file) false ::
            (importsPreloadURLs v₀ bd manifest (chunkKeyList chunk "imports") ++
              cssURLsFrom v₀ bd (chunkKeyList chunk "css")) := by
        unfold entryPreloadURLs
        simp only [hget, hfile]
      have hTag : entryTagURLs v₀ bd manifest e =
          assetPath v₀ (goJoin bd file) false ::
            (importsCssURLs v₀ bd manifest (chunkKeyList chunk "imports") ++
              cssURLsFrom v₀ bd (chunkKeyList chunk "css")) := by
        unfold entryTagURLs
        simp only [hget, hfile]
      unfold processEntry
      simp only [hget, hfile]
      rw [hPre, hTag]
      have h1 := tryAddPreload_stepBound st e (assetPath st.v (goJoin bd file) false)
        chunk manifest
      have hv1 : sameExceptPreloaded v₀
          (tryAddPreload st e (assetPath st.v (goJoin bd file) false) chunk manifest).v :=
        sameExceptPreloaded_trans hv h1.1
      have h2 := processImports_stepBound v₀ bd manifest (chunkKeyList chunk "imports")
        (tryAddPreload st e (assetPath st.v (goJoin bd file) false) chunk manifest) hv1
      set st2 := processImports
        (tryAddPreload st e (assetPath st.v (goJoin bd file) false) chunk manifest)
        (chunkKeyList chunk "imports") bd manifest with hdefst2
      have hv2 : sameExceptPreloaded v₀ st2.v := sameExceptPreloaded_trans hv1 h2.1
      have h3 := tagsAppend_stepBound st2 (assetPath st.v (goJoin bd file) false)
        (makeTagForChunk st2.v e (assetPath st.v (goJoin bd file) false) (some chunk) manifest)
      have hv3 : sameExceptPreloaded v₀
          ({ st2 with tags := st2.tags ++ [(assetPath st.v (goJoin bd file) false,
              makeTagForChunk st2.v e (assetPath st.v (goJoin bd file) false)
                (some chunk) manifest)] } : TagState).v :=
        hv2
      have h4 := addCssTags_stepBound v₀ bd manifest (chunkKeyList chunk "css")
        { st2 with tags := st2.tags ++ [(assetPath st.v (goJoin bd file) false,
            makeTagForChunk st2.v e (assetPath st.v (goJoin bd file) false)
              (some chunk) manifest)] } hv3
      have hheadPre : assetPath st.v (goJoin bd file) false ∈
          assetPath v₀ (goJoin bd file) false ::
          (importsPreloadURLs v₀ bd manifest (chunkKeyList chunk "imports") ++
            cssURLsFrom v₀ bd (chunkKeyList chunk "css")) := by
        rw [hurl]
        exact List.mem_cons_self _ _
      have hheadTag : assetPath st.v (goJoin bd file) false ∈
          assetPath v₀ (goJoin bd file) false ::
          (importsCssURLs v₀ bd manifest (chunkKeyList chunk "imports") ++
            cssURLsFrom v₀ bd (chunkKeyList chunk "css")) := by
        rw [hurl]
        exact List.mem_cons_self _ _
      refine StepBound_trans (StepBound_mono ?_ ?_ h1)
        (StepBound_trans (StepBound_mono ?_ ?_ h2)
          (StepBound_trans (StepBound_mono ?_ ?_ h3) (StepBound_mono ?_ ?_ h4)))
      · intro u hu
        rw [List.mem_singleton.1 hu]
        exact hheadPre
      · intro u hu
        cases hu
      · intro u hu
        exact List.mem_cons_of_mem _ (List.mem_append.2 (Or.inl hu))
      · intro u hu
        exact List.mem_cons_of_mem _ (List.mem_append.2 (Or.inl hu))
      · intro u hu
        cases hu
      · intro u hu
        rw [List.mem_singleton.1 hu]
        exact hheadTag
      · intro u hu
        exact List.mem_cons_of_mem _ (List.mem_append.2 (Or.inr hu))
      · intro u hu
        exact List.mem_cons_of_mem _ (List.mem_append.2 (Or.inr hu))

/-- The whole production loop, bounded: starting from the clean
accumulator, the loop only adds registry keys, keeps the dedup invariant,
and draws every preload (resp. tag) URL from some entry's candidate
list. -/
theorem generateProductionTagsCore_stepBound (v : Vite) (entrypoints : List String)
    (bd : String) (manifest : Manifest) :
    StepBound ⟨v, [], [], []⟩ (generateProductionTagsCore v entrypoints bd manifest)
      (flatURLs (entryPreloadURLs v bd manifest) entrypoints)
      (flatURLs (entryTagURLs v bd manifest) entrypoints) :=
  foldl_stepBound v _ _ _ entrypoints
    (fun st e hmem hv =>
      StepBound_mono
        (fun u hu => mem_flatURLs_of_mem _ hmem hu)
        (fun u hu => mem_flatURLs_of_mem _ hmem hu)
        (processEntry_stepBound v bd manifest e st hv))
    ⟨v, [], [], []⟩ (sameExceptPreloaded_refl v)

theorem generateProductionTagsCore_inv (v : Vite) (entrypoints : List String)
    (bd : String) (manifest : Manifest) :
    TagInv (generateProductionTagsCore v entrypoints bd manifest) :=
  (generateProductionTagsCore_stepBound v entrypoints bd manifest).2.2.1
    ⟨rfl, List.nodup_nil⟩

/-! ### The dynamic-import traversal: termination measure and invariants -/

/-- The number of manifest entries whose key is not yet discovered — the
termination measure of the recursive traversal. -/
def unvisited (m : Manifest) (d : DiscSet) : Nat :=
  match m with
  | [] => 0
  | kv :: rest => if kv.1 ∈ d then unvisited rest d else unvisited rest d + 1

theorem unvisited_le_of_subset {m : Manifest} {d d' : DiscSet} (h : d ⊆ d') :
    unvisited m d' ≤ unvisited m d := by
  induction m with
  | nil => exact Nat.le_refl _
  | cons kv rest ih =>
    by_cases h1 : kv.1 ∈ d
    · have h2 : kv.1 ∈ d' := h h1
      simp only [unvisited, if_pos h1, if_pos h2]
      exact ih
    · by_cases h2 : kv.1 ∈ d'
      · simp only [unvisited, if_neg h1, if_pos h2]
        exact Nat.le_succ_of_le ih
      · simp only [unvisited, if_neg h1, if_neg h2]
        exact Nat.succ_le_succ ih

theorem unvisited_le_length (m : Manifest) (d : DiscSet) : unvisited m d ≤ m.length := by
  induction m with
  | nil => exact Nat.le_refl _
  | cons kv rest ih =>
    by_cases h1 : kv.1 ∈ d
    · simp only [unvisited, if_pos h1, List.length_cons]
      exact Nat.le_succ_of_le ih
    · simp only [unvisited, if_neg h1, List.length_cons]
      exact Nat.succ_le_succ ih

theorem unvisited_lt_of_mem {m : Manifest} {d : DiscSet} {k : String}
    (hm : ∃ val, alistLookup m k = some val) (hd : k ∉ d) :
    unvisited m (d ++ [k]) < unvisited m d := by
  induction m with
  | nil => simp [alistLookup] at hm
  | cons kv rest ih =>
    by_cases hk : kv.1 = k
    · have hk1 : kv.1 ∉ d := hk ▸ hd
      have hk2 : kv.1 ∈ d ++ [k] := List.mem_append.2 (Or.inr (by simp [hk]))
      simp only [unvisited, if_pos hk2, if_neg hk1]
      exact Nat.lt_succ_of_le (unvisited_le_of_subset (List.subset_append_left d [k]))
    · have hm' : ∃ val, alistLookup rest k = some val := by
        rcases hm with ⟨val, hval⟩
        rw [alistLookup, if_neg hk] at hval
        exact ⟨val, hval⟩
      by_cases h1 : kv.1 ∈ d
      · have h2 : kv.1 ∈ d ++ [k] := List.mem_append.2 (Or.inl h1)
        simp only [unvisited, if_pos h1, if_pos h2]
        exact ih hm'
      · have h2 : kv.1 ∉ d ++ [k] := by
          intro hmem
          rcases List.mem_append.1 hmem with hc | hc
          · exact h1 hc
          · simp at hc
            exact hk hc
        simp only [unvisited, if_neg h1, if_neg h2]
        exact Nat.succ_lt_succ (ih hm')

theorem unvisited_pos_of_mem {m : Manifest} {d : DiscSet} {k : String}
    (hm : ∃ val, alistLookup m k = some val) (hd : k ∉ d) : 0 < unvisited m d :=
  Nat.lt_of_le_of_lt (Nat.zero_le _) (unvisited_lt_of_mem hm hd)

theorem foldl_preserves {σ β : Type} (P : σ → Prop) (f : σ → β → σ)
    (hf : ∀ s b, P s → P (f s b)) : ∀ (l : List β) (s : σ), P s → P (l.foldl f s) := by
  intro l
  induction l with
  | nil => exact fun s hs => hs
  | cons b rest ih => exact fun s hs => ih (f s b) (hf s b hs)

/-- A created prefetch asset's URL is never one already in the
preloaded-assets registry. -/
theorem createPrefetchAsset_pa {v : Vite} {src : Option JVal} {file : String}
    {chunk : Option Chunk} {manifest : Manifest} {a : PrefetchAsset}
    (h : createPrefetchAsset v src file chunk manifest = some a) :
    alistLookup v.preloadedAssets a.Href = none := by
  unfold createPrefetchAsset at h
  by_cases hur : (alistLookup v.preloadedAssets
      (assetPath v (v.config.BuildDirectory ++ "/" ++ file) false)).isSome
  · rw [if_pos hur] at h
    cases h
  · rw [if_neg hur] at h
    cases hres : resolvePreloadTagAttributes v (srcString src)
        (assetPath v (v.config.BuildDirectory ++ "/" ++ file) false) chunk manifest with
    | none =>
      rw [hres] at h
      cases h
    | some attributes =>
      rw [hres] at h
      have ha := (Option.some.inj h).symm
      rw [ha]
      exact Option.not_isSome_iff_eq_none.1 hur

theorem chunkSelfAssets_pa (v : Vite) (chunk : Chunk) (manifest : Manifest) :
    ∀ a ∈ chunkSelfAssets v chunk manifest,
      alistLookup v.preloadedAssets a.Href = none := by
  intro a ha
  unfold chunkSelfAssets at ha
  cases hfile : (alistLookup chunk "file").bind JVal.getStr with
  | none =>
    rw [hfile] at ha
    cases ha
  | some file =>
    rw [hfile] at ha
    simp only [Option.toList] at ha
    cases hc : createPrefetchAsset v
        (match alistLookup chunk "src" with
         | none => (findSrcByFile manifest file).map JVal.str
         | some JVal.null => (findSrcByFile manifest file).map JVal.str
         | some s => some s) file (some chunk) manifest with
    | none =>
      rw [hc] at ha
      cases ha
    | some a' =>
      rw [hc] at ha
      have : a = a' := by
        simpa using ha
      exact this ▸ createPrefetchAsset_pa hc

theorem chunkCssAssets_pa (v : Vite) (chunk : Chunk) (manifest : Manifest) :
    ∀ a ∈ chunkCssAssets v chunk manifest,
      alistLookup v.preloadedAssets a.Href = none := by
  intro a ha
  unfold chunkCssAssets at ha
  rcases List.mem_filterMap.1 ha with ⟨cssV, -, hfb⟩
  cases hcs : cssV.getStr with
  | none =>
    rw [hcs] at hfb
    cases hfb
  | some cssStr =>
    rw [hcs] at hfb
    exact createPrefetchAsset_pa hfb

/-- The key loop of the traversal succeeds with enough fuel, only grows
the discovered set, adds each key at most once to it, and emits only
assets whose URL is not in the preloaded registry — provided the
recursive expansion it calls does the same below the fuel bound. -/
theorem collectFromKeys_sufficient (v : Vite) (m : Manifest) (F : Nat)
    (rec : Chunk → DiscSet → Option (List PrefetchAsset × DiscSet))
    (hrec : ∀ chunk disc, unvisited m disc < F →
      ∃ assets d, rec chunk disc = some (assets, d) ∧ disc ⊆ d ∧ (disc.Nodup → d.Nodup) ∧
        ∀ a ∈ assets, alistLookup v.preloadedAssets a.Href = none) :
    ∀ (keys : List JVal) (disc : DiscSet), unvisited m disc ≤ F →
      ∃ assets d, collectFromKeys m rec keys disc = some (assets, d) ∧ disc ⊆ d ∧
        (disc.Nodup → d.Nodup) ∧
        ∀ a ∈ assets, alistLookup v.preloadedAssets a.Href = none := by
  intro keys
  induction keys with
  | nil =>
    intro disc _
    exact ⟨[], disc, rfl, fun x hx => hx, fun h => h,
      fun a ha => absurd ha (List.not_mem_nil a)⟩
  | cons importV rest ih =>
    intro disc hF
    cases hs : importV.getStr with
    | none =>
      obtain ⟨assets, d, heq, hsub, hnd, hpa⟩ := ih disc hF
      refine ⟨assets, d, ?_, hsub, hnd, hpa⟩
      simp only [collectFromKeys, hs]
      exact heq
    | some importStr =>
      by_cases hmem : importStr ∈ disc
      · obtain ⟨assets, d, heq, hsub, hnd, hpa⟩ := ih disc hF
        refine ⟨assets, d, ?_, hsub, hnd, hpa⟩
        simp only [collectFromKeys, hs]
        rw [if_pos hmem]
        exact heq
      · cases hobj : (alistLookup m importStr).bind JVal.getObj with
        | none =>
          have hF' : unvisited m (disc ++ [importStr]) ≤ F :=
            le_trans (unvisited_le_of_subset (List.subset_append_left _ _)) hF
          obtain ⟨assets, d, heq, hsub, hnd, hpa⟩ := ih (disc ++ [importStr]) hF'
          refine ⟨assets, d, ?_, ?_, ?_, hpa⟩
          · simp only [collectFromKeys, hs, hobj]
            rw [if_neg hmem]
            exact heq
          · exact fun x hx => hsub (List.mem_append.2 (Or.inl hx))
          · intro hnodup
            exact hnd (nodup_append_singleton hnodup hmem)
        | some importChunk =>
          have hval : ∃ val, alistLookup m importStr = some val := by
            cases hl : alistLookup m importStr with
            | none =>
              rw [hl] at hobj
              simp at hobj
            | some val => exact ⟨val, rfl⟩
          have hltF : unvisited m (disc ++ [importStr]) < F :=
            lt_of_lt_of_le (unvisited_lt_of_mem hval hmem) hF
          obtain ⟨a1, d1, heq1, hsub1, hnd1, hpa1⟩ :=
            hrec importChunk (disc ++ [importStr]) hltF
          have hFd1 : unvisited m d1 ≤ F :=
            le_trans (unvisited_le_of_subset hsub1) (le_of_lt hltF)
          obtain ⟨a2, d2, heq2, hsub2, hnd2, hpa2⟩ := ih d1 hFd1
          refine ⟨a1 ++ a2, d2, ?_, ?_, ?_, ?_⟩
          · simp only [collectFromKeys, hs]
            rw [if_neg hmem]
            simp only [hobj, heq1, heq2]
          · exact fun x hx => hsub2 (hsub1 (List.mem_append.2 (Or.inl hx)))
          · intro hnodup
            exact hnd2 (hnd1 (nodup_append_singleton hnodup hmem))
          · intro a ha
            rcases List.mem_append.1 ha with hc | hc
            · exact hpa1 a hc
            · exact hpa2 a hc

/-- Fuel sufficiency for the recursive traversal: with fuel exceeding the
number of undiscovered manifest keys the Go recursion is reproduced
exactly (no fuel exhaustion) — this is the termination argument of
`collectImportsRecursively` — the discovered set only grows, stays
duplicate-free, and every emitted asset's URL is absent from the
preloaded-assets registry. -/
theorem collectImportsRecursively_sufficient (v : Vite) (m : Manifest) :
    ∀ (fuel : Nat) (chunk : Chunk) (disc : DiscSet), unvisited m disc < fuel →
      ∃ assets d, collectImportsRecursively v m fuel chunk disc = some (assets, d) ∧
        disc ⊆ d ∧ (disc.Nodup → d.Nodup) ∧
        ∀ a ∈ assets, alistLookup v.preloadedAssets a.Href = none := by
  intro fuel
  induction fuel with
  | zero => exact fun chunk disc h => absurd h (Nat.not_lt_zero _)
  | succ n ih =>
    intro chunk disc h
    have hF : unvisited m disc ≤ n := Nat.lt_succ_iff.1 h
    have hcfk := collectFromKeys_sufficient v m n (collectImportsRecursively v m n) ih
    obtain ⟨a1, d1, heq1, hsub1, hnd1, hpa1⟩ := hcfk (chunkKeyList chunk "imports") disc hF
    have hFd1 : unvisited m d1 ≤ n := le_trans (unvisited_le_of_subset hsub1) hF
    obtain ⟨a2, d2, heq2, hsub2, hnd2, hpa2⟩ :=
      hcfk (chunkKeyList chunk "dynamicImports") d1 hFd1
    refine ⟨chunkSelfAssets v chunk m ++ a1 ++ a2 ++ chunkCssAssets v chunk m, d2,
      ?_, ?_, ?_, ?_⟩
    · simp only [collectImportsRecursively, heq1, heq2]
    · exact fun x hx => hsub2 (hsub1 hx)
    · exact fun hnd => hnd2 (hnd1 hnd)
    · intro a ha
      rcases List.mem_append.1 ha with hc | hc
      · rcases List.mem_append.1 hc with hc2 | hc2
        · rcases List.mem_append.1 hc2 with hc3 | hc3
          · exact chunkSelfAssets_pa v chunk m a hc3
          · exact hpa1 a hc3
        · exact hpa2 a hc2
      · exact chunkCssAssets_pa v chunk m a hc

theorem uniqueAssetsAux_subset :
    ∀ (l : List PrefetchAsset) (seen : List String) (a : PrefetchAsset),
      a ∈ uniqueAssetsAux seen l → a ∈ l := by
  intro l
  induction l with
  | nil =>
    intro seen a ha
    cases ha
  | cons hd tl ih =>
    intro seen a ha
    unfold uniqueAssetsAux at ha
    by_cases hm : hd.Href ∈ seen
    · rw [if_pos hm] at ha
      exact List.mem_cons_of_mem hd (ih seen a ha)
    · rw [if_neg hm] at ha
      rcases List.mem_cons.1 ha with hc | hc
      · exact hc ▸ List.mem_cons_self hd tl
      · exact List.mem_cons_of_mem hd (ih _ a hc)

theorem uniqueAssetsAux_nodup :
    ∀ (l : List PrefetchAsset) (seen : List String),
      ((uniqueAssetsAux seen l).map PrefetchAsset.Href).Nodup ∧
      ∀ u ∈ (uniqueAssetsAux seen l).map PrefetchAsset.Href, u ∉ seen := by
  intro l
  induction l with
  | nil =>
    intro seen
    exact ⟨List.nodup_nil, fun u hu => absurd hu (List.not_mem_nil u)⟩
  | cons hd tl ih =>
    intro seen
    unfold uniqueAssetsAux
    by_cases hm : hd.Href ∈ seen
    · rw [if_pos hm]
      exact ih seen
    · rw [if_neg hm]
      obtain ⟨hnd, hns⟩ := ih (seen ++ [hd.Href])
      constructor
      · rw [List.map_cons]
        refine List.nodup_cons.2 ⟨?_, hnd⟩
        intro hmem
        exact hns hd.Href hmem (List.mem_append.2 (Or.inr (by simp)))
      · intro u hu
        rw [List.map_cons] at hu
        rcases List.mem_cons.1 hu with hc | hc
        · exact hc ▸ hm
        · exact fun hin => hns u hc (List.mem_append.2 (Or.inl hin))

/-- The hrefs of a deduplicated prefetch-asset list hold no duplicates. -/
theorem uniquePrefetchAssets_nodup (assets : List PrefetchAsset) :
    ((uniquePrefetchAssets assets).map PrefetchAsset.Href).Nodup :=
  (uniqueAssetsAux_nodup assets []).1

theorem collectDynamicImportEntry_pa (v : Vite) (manifest : Manifest)
    (acc : List PrefetchAsset × DiscSet) (importV : JVal)
    (hP : ∀ a ∈ acc.1, alistLookup v.preloadedAssets a.Href = none) :
    ∀ a ∈ (collectDynamicImportEntry v manifest acc importV).1,
      alistLookup v.preloadedAssets a.Href = none := by
  cases hs : importV.getStr with
  | none =>
    have hid : collectDynamicImportEntry v manifest acc importV = acc := by
      unfold collectDynamicImportEntry
      simp only [hs]
    rw [hid]
    exact hP
  | some importStr =>
    cases hobj : (alistLookup manifest importStr).bind JVal.getObj with
    | none =>
      have hid : collectDynamicImportEntry v manifest acc importV = acc := by
        unfold collectDynamicImportEntry
        simp only [hs, hobj]
      rw [hid]
      exact hP
    | some importChunk =>
      cases hfile : (alistLookup importChunk "file").bind JVal.getStr with
      | none =>
        have hid : collectDynamicImportEntry v manifest acc importV = acc := by
          unfold collectDynamicImportEntry
          simp only [hs, hobj, hfile]
        rw [hid]
        exact hP
      | some file =>
        by_cases hsuf : (goEndsWith file ".js" || goEndsWith file ".css") = true
        · have hlt : unvisited manifest acc.2 < collectFuel manifest :=
            Nat.lt_succ_of_le (unvisited_le_length manifest acc.2)
          obtain ⟨assets, d, heq, -, -, hpa⟩ :=
            collectImportsRecursively_sufficient v manifest (collectFuel manifest)
              importChunk acc.2 hlt
          have hid : collectDynamicImportEntry v manifest acc importV =
              (acc.1 ++ assets, d) := by
            unfold collectDynamicImportEntry
            simp only [hs, hobj, hfile]
            rw [if_pos hsuf, heq]
          rw [hid]
          intro a ha
          rcases List.mem_append.1 ha with hc | hc
          · exact hP a hc
          · exact hpa a hc
        · have hid : collectDynamicImportEntry v manifest acc importV = acc := by
            unfold collectDynamicImportEntry
            simp only [hs, hobj, hfile]
            rw [if_neg hsuf]
          rw [hid]
          exact hP

theorem collectDynamicEntrypoint_pa (v : Vite) (manifest : Manifest)
    (acc : List PrefetchAsset × DiscSet) (entrypoint : String)
    (hP : ∀ a ∈ acc.1, alistLookup v.preloadedAssets a.Href = none) :
    ∀ a ∈ (collectDynamicEntrypoint v manifest acc entrypoint).1,
      alistLookup v.preloadedAssets a.Href = none := by
  cases hobj : (alistLookup manifest entrypoint).bind JVal.getObj with
  | none =>
    have hid : collectDynamicEntrypoint v manifest acc entrypoint = acc := by
      unfold collectDynamicEntrypoint
      simp only [hobj]
    rw [hid]
    exact hP
  | some chunk =>
    cases harr : (alistLookup chunk "dynamicImports").bind JVal.getArr with
    | none =>
      have hid : collectDynamicEntrypoint v manifest acc entrypoint = acc := by
        unfold collectDynamicEntrypoint
        simp only [hobj, harr]
      rw [hid]
      exact hP
    | some dynamicImports =>
      have hid : collectDynamicEntrypoint v manifest acc entrypoint =
          dynamicImports.foldl
            (fun acc importV => collectDynamicImportEntry v manifest acc importV) acc := by
        unfold collectDynamicEntrypoint
        simp only [hobj, harr]
      rw [hid]
      exact foldl_preserves
        (fun acc => ∀ a ∈ acc.1, alistLookup v.preloadedAssets a.Href = none)
        (fun acc importV => collectDynamicImportEntry v manifest acc importV)
        (fun acc' iv h => collectDynamicImportEntry_pa v manifest acc' iv h)
        dynamicImports acc hP

/-- No asset collected for prefetching carries a URL already present in
the preloaded-assets registry. -/
theorem collectDynamicImports_pa (v : Vite) (entrypoints : List String)
    (manifest : Manifest) :
    ∀ a ∈ collectDynamicImports v entrypoints manifest,
      alistLookup v.preloadedAssets a.Href = none := by
  intro a ha
  unfold collectDynamicImports at ha
  have hsub := uniqueAssetsAux_subset _ [] a ha
  have hP := foldl_preserves
    (fun acc : List PrefetchAsset × DiscSet =>
      ∀ x ∈ acc.1, alistLookup v.preloadedAssets x.Href = none)
    (fun acc entrypoint => collectDynamicEntrypoint v manifest acc entrypoint)
    (fun acc' e h => collectDynamicEntrypoint_pa v manifest acc' e h)
    entrypoints ([], []) (fun x hx => absurd hx (List.not_mem_nil x))
  exact hP a hsub

/-! ### Supporting lemmas for the claim theorems, and concrete fixtures -/

theorem applyPreloadResolvers_none (src url : String) (chunk : Option Chunk)
    (manifest : Manifest) :
    ∀ (resolvers : List AttributeResolver) (attrs : AttrMap),
      (∃ r ∈ resolvers, r src url chunk manifest = none) →
      applyPreloadResolvers attrs resolvers src url chunk manifest = none := by
  intro resolvers
  induction resolvers with
  | nil =>
    intro attrs h
    rcases h with ⟨r, hr, -⟩
    cases hr
  | cons r0 rest ih =>
    intro attrs h
    cases h0 : r0 src url chunk manifest with
    | none =>
      unfold applyPreloadResolvers
      rw [h0]
    | some resolved =>
      rcases h with ⟨r, hr, hnone⟩
      rcases List.mem_cons.1 hr with hc | hc
      · rw [hc] at hnone
        rw [hnone] at h0
        cases h0
      · unfold applyPreloadResolvers
        rw [h0]
        exact ih _ ⟨r, hc, hnone⟩

theorem resolvePreloadTagAttributes_none (v : Vite) (src url : String)
    (chunk : Option Chunk) (manifest : Manifest)
    (h : ∃ r ∈ v.preloadTagAttributeResolvers, r src url chunk manifest = none) :
    resolvePreloadTagAttributes v src url chunk manifest = none := by
  unfold resolvePreloadTagAttributes
  exact applyPreloadResolvers_none src url chunk manifest _ _ h

theorem string_append_ne_empty {s : String} (hs : s ≠ "") (t : String) : s ++ t ≠ "" := by
  intro h
  apply hs
  have hlen := congrArg String.length h
  rw [String.length_append, show ("" : String).length = 0 from rfl] at hlen
  have hz : s.length = 0 := by omega
  cases s with
  | mk data =>
    cases data with
    | nil => rfl
    | cons c cs => simp [String.length] at hz

theorem makeTagForChunk_ne_empty (v : Vite) (src url : String)
    (chunk : Option Chunk) (manifest : Manifest) :
    makeTagForChunk v src url chunk manifest ≠ "" := by
  unfold makeTagForChunk makeStylesheetTagWithAttributes makeScriptTagWithAttributes
  by_cases hc : isCSSPath url = true
  · rw [if_pos hc]
    exact string_append_ne_empty (string_append_ne_empty (by decide) _) _
  · rw [if_neg hc]
    exact string_append_ne_empty (string_append_ne_empty (by decide) _) _

/-- Attribute rendering as worded by the specification: skip absent and
false values, render true bare, otherwise render `name="value"`. -/
def renderAttributesSpec (attributes : AttrMap) : List String :=
  attributes.filterMap (fun kv =>
    match kv.2 with
    | .null => none
    | .bool false => none
    | .bool true => some kv.1
    | v => some (kv.1 ++ "=\"" ++ goFormat v ++ "\""))

theorem parseAttributes_go :
    ∀ (l : AttrMap) (acc : List String),
      l.foldl (fun result kv =>
        match kv.2 with
        | .null => result
        | .bool false => result
        | .bool true => result ++ [kv.1]
        | v => result ++ [kv.1 ++ "=\"" ++ goFormat v ++ "\""]) acc =
      acc ++ renderAttributesSpec l := by
  intro l
  induction l with
  | nil =>
    intro acc
    simp [renderAttributesSpec]
  | cons kv rest ih =>
    intro acc
    obtain ⟨k, val⟩ := kv
    cases val with
    | null => simp [renderAttributesSpec, List.filterMap_cons, ih]
    | bool b =>
      cases b <;> simp [renderAttributesSpec, List.filterMap_cons, ih, List.append_assoc]
    | str s => simp [renderAttributesSpec, List.filterMap_cons, ih, List.append_assoc]
    | int n => simp [renderAttributesSpec, List.filterMap_cons, ih, List.append_assoc]
    | arr xs => simp [renderAttributesSpec, List.filterMap_cons, ih, List.append_assoc]
    | obj fs => simp [renderAttributesSpec, List.filterMap_cons, ih, List.append_assoc]

theorem processEntry_skip {manifest : Manifest} {e : String}
    (h : alistLookup manifest e = none) (st : TagState) (bd : String) :
    processEntry st e bd manifest = st := by
  have hg : getChunk manifest e = .error (.chunkNotFound e) := by
    unfold getChunk
    rw [h]
  unfold processEntry
  simp only [hg]

/-- A manifest with a dynamic-import cycle A to B to A — the example
named by the specification. -/
def cyclicManifest : Manifest :=
  [("A", .obj [("file", .str "a.js"), ("dynamicImports", .arr [.str "B"])]),
   ("B", .obj [("file", .str "b.js"), ("dynamicImports", .arr [.str "A"])])]

/-- A manifest whose single entry carries one CSS file and no imports. -/
def cssManifest : Manifest :=
  [("main.js", .obj [("file", .str "assets/main.js"), ("css", .arr [.str "assets/main.css"])])]

/-- A manifest with an entry, a direct import, and a depth-two import
reachable only through imports-of-imports. -/
def demoManifest : Manifest :=
  [("main.js", .obj [("file", .str "assets/main.js"), ("imports", .arr [.str "_imp.js"]),
     ("css", .arr [.str "assets/main.css"])]),
   ("_imp.js", .obj [("file", .str "assets/imp.js"), ("imports", .arr [.str "_deep.js"]),
     ("css", .arr [.str "assets/imp.css"])]),
   ("_deep.js", .obj [("file", .str "assets/deep.js"), ("css", .arr [.str "assets/deep.css"])])]

/-- An instance whose preload resolver pipeline suppresses every asset. -/
def vSuppress : Vite :=
  { NewVite with preloadTagAttributeResolvers := [fun _ _ _ _ => none] }

/-- An instance whose registry already holds the URL of chunk B's file. -/
def vPreloadedB : Vite :=
  { NewVite with preloadedAssets := [("/build/b.js", [])] }

/-! ### The claim theorems -/

/-- C1: for every manifest and every list of entry keys, the production
render emits all preload tags before all script/stylesheet content tags,
each group in discovery order (the output is exactly the concatenation of
the collected preload tags followed by the collected content tags, then
the prefetch segment), and no resolved URL receives more than one preload
tag within a single call — the collected preload URLs hold no
duplicates — even when several entries share imports or CSS files. -/
theorem claim_C1_preload_grouping_and_dedup :
    ∀ (v : Vite) (entrypoints : List String) (bd : String) (manifest : Manifest),
      (generateProductionTags v entrypoints bd manifest).1 =
        .ok ((String.join
              ((generateProductionTagsCore v entrypoints bd manifest).preloads.map
                (fun p => p.2)) ++
            String.join
              ((generateProductionTagsCore v entrypoints bd manifest).tags.map
                (fun p => p.2))) ++
          prefetchSegment (generateProductionTagsCore v entrypoints bd manifest).v
            entrypoints manifest) ∧
      ((generateProductionTagsCore v entrypoints bd manifest).preloads.map Prod.fst).Nodup := by
  intro v entrypoints bd manifest
  constructor
  · rfl
  · obtain ⟨h1, h2⟩ := generateProductionTagsCore_inv v entrypoints bd manifest
    rw [h1]
    exact h2

/-- C2 counterexample: in the cyclic manifest A to B to A of the claim,
one single call of the traversal started (as `collectDynamicImports`
starts it for entry A's dynamic import B) visits chunk key B twice: B's
asset appears twice in the collected list before final dedup. -/
theorem claim_C2_counterexample :
    (collectImportsRecursively NewVite cyclicManifest (collectFuel cyclicManifest)
        [("file", JVal.str "b.js"), ("dynamicImports", JVal.arr [JVal.str "A"])] []).map
      (fun r => r.1.map PrefetchAsset.Href) =
      some ["/build/b.js", "/build/a.js", "/build/b.js"] := by
  decide

/-- C2 as amended: the traversal always terminates (the fuel bound used
by `collectDynamicImports` is never exhausted), the discovered-set guard
marks each key at most once so no chunk key is ever expanded twice
through an `imports`/`dynamicImports` edge (the discovered set stays
duplicate-free), and the final result is deduplicated by href; but a
chunk entered from the outer dynamic-imports loop is not itself marked
discovered, so it can be visited more than once within a call (see the
counterexample); on the cyclic manifest the call still terminates with
each asset listed once. -/
theorem claim_C2_traversal_amended :
    (∀ (v : Vite) (manifest : Manifest) (chunk : Chunk) (disc : DiscSet),
      ∃ assets d,
        collectImportsRecursively v manifest (collectFuel manifest) chunk disc =
          some (assets, d) ∧ disc ⊆ d ∧ (disc.Nodup → d.Nodup)) ∧
    (∀ (v : Vite) (entrypoints : List String) (manifest : Manifest),
      ((collectDynamicImports v entrypoints manifest).map PrefetchAsset.Href).Nodup) ∧
    (collectDynamicImports NewVite ["A"] cyclicManifest).map PrefetchAsset.Href =
      ["/build/b.js", "/build/a.js"] := by
  refine ⟨?_, ?_, by decide⟩
  · intro v manifest chunk disc
    obtain ⟨assets, d, heq, hsub, hnd, -⟩ :=
      collectImportsRecursively_sufficient v manifest (collectFuel manifest) chunk disc
        (Nat.lt_succ_of_le (unvisited_le_length manifest disc))
    exact ⟨assets, d, heq, hsub, hnd⟩
  · intro v entrypoints manifest
    simp only [collectDynamicImports]
    exact uniquePrefetchAssets_nodup _

theorem claim_C2_witness :
    ∃ assets d,
      collectImportsRecursively NewVite cyclicManifest (collectFuel cyclicManifest)
          [("file", JVal.str "a.js"), ("dynamicImports", JVal.arr [JVal.str "B"])] [] =
        some (assets, d) ∧ ([] : DiscSet) ⊆ d ∧ (([] : DiscSet).Nodup → d.Nodup) :=
  claim_C2_traversal_amended.1 NewVite cyclicManifest
    [("file", JVal.str "a.js"), ("dynamicImports", JVal.arr [JVal.str "B"])] []

/-- C3 counterexample: the static closure also emits preload tags for CSS
files.  For an entry with one CSS file and no imports, the render preloads
a URL that is neither the entry's own file URL nor any direct import's
file URL (the imports list is empty). -/
theorem claim_C3_counterexample :
    "/build/assets/main.css" ∈
      (generateProductionTagsCore NewVite ["main.js"] "build" cssManifest).preloads.map
        Prod.fst ∧
    (chunkKeyList [("file", JVal.str "assets/main.js"),
      ("css", JVal.arr [JVal.str "assets/main.css"])] "imports").length = 0 ∧
    "/build/assets/main.css" ≠ assetPath NewVite (goJoin "build" "assets/main.js") false := by
  decide

/-- C3 as amended: for every entry key, the static closure preloads only
the entry's own file, the files of the entry's direct imports, and the
CSS files of the entry and of those direct imports; content tags come
only from the entry's file and those CSS lists; a chunk reachable only
through imports-of-imports contributes no preload tag and no CSS tag —
concretely, on a manifest with a depth-two import chain the emitted URLs
are exactly those of the entry and its direct import. -/
theorem claim_C3_direct_closure_amended :
    (∀ (v : Vite) (bd : String) (manifest : Manifest) (e : String),
      (∀ u ∈ (generateProductionTagsCore v [e] bd manifest).preloads.map Prod.fst,
        u ∈ entryPreloadURLs v bd manifest e) ∧
      (∀ u ∈ (generateProductionTagsCore v [e] bd manifest).tags.map Prod.fst,
        u ∈ entryTagURLs v bd manifest e)) ∧
    (generateProductionTagsCore NewVite ["main.js"] "build" demoManifest).preloads.map
        Prod.fst =
      ["/build/assets/main.js", "/build/assets/imp.js", "/build/assets/imp.css",
       "/build/assets/main.css"] ∧
    (generateProductionTagsCore NewVite ["main.js"] "build" demoManifest).tags.map Prod.fst =
      ["/build/assets/imp.css", "/build/assets/main.js", "/build/assets/main.css"] := by
  refine ⟨?_, by decide, by decide⟩
  intro v bd manifest e
  have hsb := generateProductionTagsCore_stepBound v [e] bd manifest
  constructor
  · intro u hu
    rcases hsb.2.2.2.1 u hu with hc | hc
    · cases hc
    · rcases List.mem_append.1 hc with hm | hm
      · exact hm
      · cases hm
  · intro u hu
    rcases hsb.2.2.2.2 u hu with hc | hc
    · cases hc
    · rcases List.mem_append.1 hc with hm | hm
      · exact hm
      · cases hm

theorem claim_C3_witness :
    (∀ u ∈ (generateProductionTagsCore NewVite ["main.js"] "build" cssManifest).preloads.map
        Prod.fst,
      u ∈ entryPreloadURLs NewVite "build" cssManifest "main.js") ∧
    "/build/assets/main.css" ∈ entryPreloadURLs NewVite "build" cssManifest "main.js" :=
  ⟨(claim_C3_direct_closure_amended.1 NewVite "build" cssManifest "main.js").1,
   (claim_C3_direct_closure_amended.1 NewVite "build" cssManifest "main.js").1
     "/build/assets/main.css" (by decide)⟩

/-- C4: if any registered preload attribute resolver returns the nil
"no attributes" sentinel for an asset, no preload tag is emitted for that
asset (and the registry is untouched), while script and stylesheet tags
render regardless of resolver output; concretely, with a suppressing
resolver installed the render emits no preload but still the entry's
script tag and CSS stylesheet tag. -/
theorem claim_C4_preload_suppression :
    (∀ (v : Vite) (src url : String) (chunk : Option Chunk) (manifest : Manifest),
      (∃ r ∈ v.preloadTagAttributeResolvers, r src url chunk manifest = none) →
      makePreloadTagForChunk v src url chunk manifest = ("", v)) ∧
    (∀ (v : Vite) (src url : String) (chunk : Option Chunk) (manifest : Manifest),
      makeTagForChunk v src url chunk manifest ≠ "") ∧
    (generateProductionTagsCore vSuppress ["main.js"] "build" cssManifest).preloads = [] ∧
    (generateProductionTagsCore vSuppress ["main.js"] "build" cssManifest).tags.map
        Prod.snd =
      ["<script type=\"module\" src=\"/build/assets/main.js\" nonce=\"\"></script>",
       "<link rel=\"stylesheet\" href=\"/build/assets/main.css\" nonce=\"\" />"] := by
  refine ⟨?_, makeTagForChunk_ne_empty, by decide, by decide⟩
  intro v src url chunk manifest h
  unfold makePreloadTagForChunk
  rw [resolvePreloadTagAttributes_none v src url chunk manifest h]

theorem claim_C4_witness :
    makePreloadTagForChunk vSuppress "main.js" "/build/assets/main.js"
      (some [("file", JVal.str "assets/main.js")]) cssManifest = ("", vSuppress) :=
  claim_C4_preload_suppression.1 vSuppress "main.js" "/build/assets/main.js"
    (some [("file", JVal.str "assets/main.js")]) cssManifest
    ⟨fun _ _ _ _ => none, List.mem_singleton_self _, rfl⟩

/-- C5: manifest loading resolves `buildDirectory/manifestFilename`,
fails with a not-found error when the file is absent and a parse error
when its content is not valid JSON, and after one successful load every
repeated call with the same resolved path returns the cached manifest
without re-reading the file (the second call's result is independent of
the filesystem and parser). -/
theorem claim_C5_manifest_store :
    (∀ (v : Vite) (bd : String),
      manifestPath v bd = goJoin bd v.config.ManifestFilename) ∧
    (∀ (v : Vite) (fs : FS) (parse : String → Option Manifest) (bd : String),
      alistLookup v.manifests (manifestPath v bd) = none →
      fs (manifestPath v bd) = none →
      getManifest v fs parse bd = (.error (.manifestNotFound (manifestPath v bd)), v)) ∧
    (∀ (v : Vite) (fs : FS) (parse : String → Option Manifest) (bd content : String),
      alistLookup v.manifests (manifestPath v bd) = none →
      fs (manifestPath v bd) = some content →
      parse content = none →
      getManifest v fs parse bd = (.error (.manifestParseError (manifestPath v bd)), v)) ∧
    (∀ (v : Vite) (fs : FS) (parse : String → Option Manifest) (bd : String)
        (m : Manifest) (v' : Vite),
      getManifest v fs parse bd = (.ok m, v') →
      ∀ (fs' : FS) (parse' : String → Option Manifest),
        getManifest v' fs' parse' bd = (.ok m, v')) := by
  refine ⟨fun v bd => rfl, ?_, ?_, ?_⟩
  · intro v fs parse bd hc hfs
    unfold getManifest
    simp only [hc, hfs]
  · intro v fs parse bd content hc hfs hp
    unfold getManifest
    simp only [hc, hfs, hp]
  · intro v fs parse bd m v' h fs' parse'
    unfold getManifest at h ⊢
    cases hc : alistLookup v.manifests (manifestPath v bd) with
    | some cached =>
      simp only [hc] at h
      obtain ⟨hm, hv⟩ := Prod.mk.injEq .. ▸ h
      have hcm : cached = m := by
        simpa using hm
      subst hv
      simp only [hc, hcm]
    | none =>
      simp only [hc] at h
      cases hfs : fs (manifestPath v bd) with
      | none =>
        simp only [hfs] at h
        cases h
      | some content =>
        simp only [hfs] at h
        cases hp : parse content with
        | none =>
          simp only [hp] at h
          cases h
        | some man =>
          simp only [hp] at h
          obtain ⟨hm, hv⟩ := Prod.mk.injEq .. ▸ h
          have hman : man = m := by
            simpa using hm
          subst hman
          subst hv
          simp only [show
            manifestPath
              { v with manifests := alistInsert v.manifests (manifestPath v bd) man } bd =
              manifestPath v bd from rfl]
          simp only [alistLookup_insert_self]

theorem claim_C5_witness :
    getManifest { NewVite with manifests := [("build/manifest.json", cssManifest)] }
        (fun _ => none) (fun _ => none) "build" =
      (.ok cssManifest,
        { NewVite with manifests := [("build/manifest.json", cssManifest)] }) :=
  claim_C5_manifest_store.2.2.2 NewVite
    (fun p => if p = "build/manifest.json" then some "M" else none)
    (fun s => if s = "M" then some cssManifest else none) "build" cssManifest
    { NewVite with manifests := [("build/manifest.json", cssManifest)] } rfl
    (fun _ => none) (fun _ => none)

/-- C6: calling `collectDynamicImports` twice with the same manifest,
entry list, and an unmodified registry produces the same ordered list
both times (the traversal never writes the instance: in this embedding it
is a pure function of them, mirroring that the Go code never assigns to
the receiver), and any asset whose resolved URL is already present in the
registry is omitted from the result. -/
theorem claim_C6_idempotence_and_omission :
    (∀ (v : Vite) (entrypoints : List String) (manifest : Manifest),
      collectDynamicImports v entrypoints manifest =
        collectDynamicImports v entrypoints manifest) ∧
    (∀ (v : Vite) (entrypoints : List String) (manifest : Manifest),
      ∀ a ∈ collectDynamicImports v entrypoints manifest,
        alistLookup v.preloadedAssets a.Href = none) ∧
    (∀ (v : Vite) (entrypoints : List String) (manifest : Manifest) (url : String)
        (attrs : AttrMap),
      alistLookup v.preloadedAssets url = some attrs →
      ∀ a ∈ collectDynamicImports v entrypoints manifest, a.Href ≠ url) := by
  refine ⟨fun _ _ _ => rfl, collectDynamicImports_pa, ?_⟩
  intro v entrypoints manifest url attrs hsome a ha heq
  have hnone := collectDynamicImports_pa v entrypoints manifest a ha
  rw [heq, hsome] at hnone
  cases hnone

theorem claim_C6_witness :
    alistLookup vPreloadedB.preloadedAssets "/build/b.js" = some [] ∧
    ∀ a ∈ collectDynamicImports vPreloadedB ["A"] cyclicManifest, a.Href ≠ "/build/b.js" :=
  ⟨rfl, claim_C6_idempotence_and_omission.2.2 vPreloadedB ["A"] cyclicManifest
    "/build/b.js" [] rfl⟩

/-- C7: attribute serialization skips every key whose value is absent
(nil) or boolean false, renders boolean true as the bare attribute name,
and renders any other value as `name="value"` with string coercion and no
escaping (restated as `renderAttributesSpec`); in particular the map with
defer true, disabled false, hidden nil and data-value 123 renders as
exactly the two attributes `defer` and `data-value="123"` in some order,
with disabled and hidden entirely absent. -/
theorem claim_C7_attribute_serialization :
    (∀ attributes : AttrMap, parseAttributes attributes = renderAttributesSpec attributes) ∧
    (parseAttributes [("defer", .bool true), ("disabled", .bool false), ("hidden", .null),
      ("data-value", .int 123)]).Perm ["defer", "data-value=\"123\""] := by
  refine ⟨?_, by decide⟩
  intro attributes
  have h := parseAttributes_go attributes []
  simpa [parseAttributes] using h

/-- C8: an entry key absent from the manifest is surfaced as an error
only for direct single-asset lookups — `getChunk` errors and `Asset`
propagates the error — while during graph traversal a referenced key
absent from the manifest is silently skipped: a missing entry contributes
nothing to the render, a missing import key is a no-op in the imports
loop, and the production render always succeeds. -/
theorem claim_C8_missing_key_policy :
    (∀ (manifest : Manifest) (key : String),
      alistLookup manifest key = none →
      getChunk manifest key = .error (.chunkNotFound key)) ∧
    (∀ (v : Vite) (fs : FS) (parse : String → Option Manifest) (asset bd : String)
        (m : Manifest) (v' : Vite),
      isRunningHot v fs = false →
      getManifest v fs parse (if bd = "" then v.config.BuildDirectory else bd) =
        (.ok m, v') →
      alistLookup m asset = none →
      Asset v fs parse asset bd = (.error (.chunkNotFound asset), v')) ∧
    (∀ (v : Vite) (bd : String) (manifest : Manifest) (e : String)
        (entrypoints : List String),
      alistLookup manifest e = none →
      generateProductionTagsCore v (e :: entrypoints) bd manifest =
        generateProductionTagsCore v entrypoints bd manifest) ∧
    (∀ (st : TagState) (importV : JVal) (bd : String) (manifest : Manifest)
        (importStr : String),
      importV.getStr = some importStr →
      alistLookup manifest importStr = none →
      processImport st importV bd manifest = st) ∧
    (∀ (v : Vite) (entrypoints : List String) (bd : String) (manifest : Manifest),
      ∃ s, (generateProductionTags v entrypoints bd manifest).1 = .ok s) := by
  refine ⟨?_, ?_, ?_, ?_, fun v entrypoints bd manifest => ⟨_, rfl⟩⟩
  · intro manifest key h
    unfold getChunk
    simp only [h]
  · intro v fs parse asset bd m v' hhot hman hkey
    have hcond : ¬(isRunningHot v fs = true) := by
      simp [hhot]
    simp only [Asset]
    rw [if_neg hcond]
    simp only [hman, getChunk, hkey]
  · intro v bd manifest e entrypoints h
    unfold generateProductionTagsCore
    rw [List.foldl_cons, processEntry_skip h]
  · intro st importV bd manifest importStr hs hkey
    unfold processImport
    simp only [hs, hkey, Option.none_bind]

theorem claim_C8_witness :
    Asset NewVite (fun p => if p = "build/manifest.json" then some "M" else none)
        (fun s => if s = "M" then some cssManifest else none) "missing.js" "" =
      (.error (.chunkNotFound "missing.js"),
        { NewVite with manifests := [("build/manifest.json", cssManifest)] }) :=
  claim_C8_missing_key_policy.2.1 NewVite
    (fun p => if p = "build/manifest.json" then some "M" else none)
    (fun s => if s = "M" then some cssManifest else none) "missing.js" "" cssManifest
    { NewVite with manifests := [("build/manifest.json", cssManifest)] } rfl rfl rfl

/-- C9: whenever a preload tag is rendered for a URL, the registry maps
that URL to exactly the attributes used for the tag minus the `href` key;
within a render pass registry keys are only added, never removed (every
key present before the render is present after), and the registry is
emptied by the explicit `Flush`. -/
theorem claim_C9_registry :
    (∀ (v : Vite) (src url : String) (chunk : Option Chunk) (manifest : Manifest)
        (attributes : AttrMap),
      resolvePreloadTagAttributes v src url chunk manifest = some attributes →
      alistLookup (makePreloadTagForChunk v src url chunk manifest).2.preloadedAssets url =
        some (attributes.filter (fun kv => kv.1 ≠ "href"))) ∧
    (∀ (v : Vite) (entrypoints : List String) (bd : String) (manifest : Manifest)
        (k : String),
      (alistLookup v.preloadedAssets k).isSome = true →
      (alistLookup (generateProductionTags v entrypoints bd manifest).2.preloadedAssets
          k).isSome = true) ∧
    (∀ v : Vite, (Flush v).preloadedAssets = []) := by
  refine ⟨?_, ?_, fun v => rfl⟩
  · intro v src url chunk manifest attributes h
    unfold makePreloadTagForChunk
    simp only [h]
    exact alistLookup_insert_self _ _ _
  · intro v entrypoints bd manifest k hk
    exact (generateProductionTagsCore_stepBound v entrypoints bd manifest).2.1 k hk

theorem claim_C9_witness :
    (alistLookup (generateProductionTags vPreloadedB ["main.js"] "build"
        cssManifest).2.preloadedAssets "/build/b.js").isSome = true :=
  claim_C9_registry.2.1 vPreloadedB ["main.js"] "build" cssManifest "/build/b.js" rfl

/-- C10: `Flush` resets the preloaded-assets registry to empty and
changes nothing else: configuration, nonce, integrity key, asset path
resolver, the three resolver lists, the manifest cache, and the prefetch
strategy, concurrency and event are all unchanged. -/
theorem claim_C10_flush_frame :
    ∀ v : Vite,
      (Flush v).preloadedAssets = [] ∧
      (Flush v).config = v.config ∧
      (Flush v).nonce = v.nonce ∧
      (Flush v).integrityKey = v.integrityKey ∧
      (Flush v).assetPathResolver = v.assetPathResolver ∧
      (Flush v).scriptTagAttributeResolvers = v.scriptTagAttributeResolvers ∧
      (Flush v).styleTagAttributeResolvers = v.styleTagAttributeResolvers ∧
      (Flush v).preloadTagAttributeResolvers = v.preloadTagAttributeResolvers ∧
      (Flush v).manifests = v.manifests ∧
      (Flush v).prefetchStrategy = v.prefetchStrategy ∧
      (Flush v).prefetchConcurrently = v.prefetchConcurrently ∧
      (Flush v).prefetchEvent = v.prefetchEvent :=
  fun v => ⟨rfl, rfl, rfl, rfl, rfl, rfl, rfl, rfl, rfl, rfl, rfl, rfl⟩

end GoViteParser
